import Mathlib

/-!
Verification development for the scenely_server job-processing pipeline.

Shallow embedding of the Python sources:
  * `app/services/transcript_service.py`  (word → sentence segmentation)
  * `app/services/gemini_service.py`      (AI response parsing / validation)
  * `app/utils/file_cleanup.py`           (temp-file cleanup)
  * `app/workers/tasks.py`                (the `process_job` orchestrator)

Python floats are modelled as rationals (`ℚ`); database sessions are
modelled as explicit pending/committed row lists; exceptions are modelled
with `Except String`; external collaborators (yt-dlp, S3, Google STT,
Gemini) are modelled as oracle fields of an `Env` record.
-/

namespace Scenely

/-! ## Transcript words (`transcript_service.py`) -/

/-- A word-level STT item: `{"word": ..., "startSeconds": ..., "endSeconds": ...}`. -/
structure TWord where
  word : String
  startSeconds : ℚ
  endSeconds : ℚ
  deriving Repr, DecidableEq, Inhabited

/-- A sentence segment `{"start": ..., "end": ..., "text": ...}` produced by
`words_to_segments`.  The Python key `"end"` is modelled by the field `endS`. -/
structure SentSeg where
  start : ℚ
  endS : ℚ
  text : String
  deriving Repr, DecidableEq, Inhabited

/-- Python `str.strip()` — drop leading and trailing whitespace.  Defined over
the character list so that it evaluates inside the kernel. -/
def pyStrip (s : String) : String :=
  ⟨((s.data.dropWhile Char.isWhitespace).reverse.dropWhile
      Char.isWhitespace).reverse⟩

/-- Python `" ".join(parts)`. -/
def joinSp : List String → String
  | [] => ""
  | [s] => s
  | s :: rest => s ++ " " ++ joinSp rest

/-- `word and word[-1] in ".!?"` — the stripped word is non-empty and its last
character is terminal punctuation. -/
def endsTerminal (s : String) : Bool :=
  match s.toList.getLast? with
  | some c => c == '.' || c == '!' || c == '?'
  | none => false

/-- The loop body of `words_to_segments` (transcript_service.py lines 28-47),
written as a structural recursion over the remaining words.  State:
`segments` accumulated so far, `current` list of (stripped) word texts,
`currentStart` the Python `current_start` (None ↦ `none`). -/
def segLoop : List TWord → List SentSeg → List String → Option ℚ →
    List SentSeg × List String × Option ℚ
  | [], segments, current, currentStart => (segments, current, currentStart)
  | w :: ws, segments, current, currentStart =>
      let word := pyStrip w.word
      let cs := currentStart.getD w.startSeconds
      let current2 := current ++ [word]
      if endsTerminal word then
        segLoop ws
          (segments ++ [⟨cs, w.endSeconds, joinSp current2⟩]) [] none
      else
        segLoop ws segments current2 (some cs)

/-- `words_to_segments` (transcript_service.py lines 9-60).  The final
trailing-segment start reproduces the Python expression
`current_start or last_word.get("startSeconds", 0.0)`: the fallback fires
when `current_start` is `None` *or equal to `0.0`* (Python truthiness). -/
def words_to_segments (words : List TWord) : List SentSeg :=
  if words.isEmpty then [] else
  let st := segLoop words [] [] none
  let segments := st.1
  let current := st.2.1
  let currentStart := st.2.2
  if current.isEmpty then segments
  else
    let lastW := words.getLastD default
    let start :=
      match currentStart with
      | some s => if s = 0 then lastW.startSeconds else s
      | none => lastW.startSeconds
    segments ++ [⟨start, lastW.endSeconds, joinSp current⟩]

/-! Specification-side chunking: split the word list *after* every word whose
stripped text ends in terminal punctuation. -/

/-- Split a word list into maximal chunks, each chunk closed by a word whose
stripped text ends in `.`, `!` or `?` (the last chunk may be unterminated). -/
def splitAfterTerminal : List TWord → List (List TWord)
  | [] => []
  | w :: ws =>
      if endsTerminal (pyStrip w.word) then [w] :: splitAfterTerminal ws
      else
        match splitAfterTerminal ws with
        | [] => [[w]]
        | c :: cs => (w :: c) :: cs

/-- The segment produced for one chunk.  A chunk closed by a terminal word gets
`start` = its first word's start; the trailing (unterminated) chunk falls back
to its last word's start whenever its first word's start equals `0` — the
Python truthiness slip on `current_start or last_word.get("startSeconds")`. -/
def segOfChunk (c : List TWord) : SentSeg :=
  let hd := c.headI
  let lst := c.getLastD default
  { start :=
      if endsTerminal (pyStrip lst.word) then hd.startSeconds
      else if hd.startSeconds = 0 then lst.startSeconds else hd.startSeconds
    endS := lst.endSeconds
    text := joinSp (c.map (fun w => pyStrip w.word)) }

/-- The Python trailing-segment start `current_start or last_word["startSeconds"]`. -/
def trailStart (cs : Option ℚ) (lw : TWord) : ℚ :=
  match cs with
  | some s => if s = 0 then lw.startSeconds else s
  | none => lw.startSeconds

/-- Bridge: the tail of `words_to_segments` starting from an arbitrary
mid-loop state; `prev` is the last word already consumed (used for the
trailing segment when no further words remain). -/
def wtsAux (ws : List TWord) (current : List String) (cs : Option ℚ)
    (prev : TWord) : List SentSeg :=
  let st := segLoop ws [] current cs
  let lw := ws.getLastD prev
  st.1 ++
    (if st.2.1.isEmpty then []
     else [⟨trailStart st.2.2 lw, lw.endSeconds, joinSp st.2.1⟩])

/-- `segOfChunk` for the first chunk, merged with an in-progress state. -/
def mergedChunkSeg (current : List String) (cs : Option ℚ) (c : List TWord) :
    SentSeg :=
  let s0 := cs.getD c.headI.startSeconds
  let lst := c.getLastD default
  { start :=
      if endsTerminal (pyStrip lst.word) then s0
      else if s0 = 0 then lst.startSeconds else s0
    endS := lst.endSeconds
    text := joinSp (current ++ c.map (fun w => pyStrip w.word)) }

lemma segLoop_append (ws : List TWord) (a b : List SentSeg) (cur : List String)
    (cs : Option ℚ) :
    segLoop ws (a ++ b) cur cs =
      (a ++ (segLoop ws b cur cs).1, (segLoop ws b cur cs).2) := by
  induction ws generalizing b cur cs with
  | nil => simp [segLoop]
  | cons w ws ih =>
      by_cases hT : endsTerminal (pyStrip w.word)
      · simp only [segLoop, hT, if_true]
        rw [List.append_assoc, ih]
      · simp [segLoop, hT, ih]

lemma segLoop_acc (ws : List TWord) (a : List SentSeg) (cur : List String)
    (cs : Option ℚ) :
    segLoop ws a cur cs =
      (a ++ (segLoop ws [] cur cs).1, (segLoop ws [] cur cs).2) := by
  have h := segLoop_append ws a [] cur cs
  simpa using h

lemma wtsAux_cons (w : TWord) (ws : List TWord) (current : List String)
    (cs : Option ℚ) (prev : TWord) :
    wtsAux (w :: ws) current cs prev =
      (if endsTerminal (pyStrip w.word) then
        ⟨cs.getD w.startSeconds, w.endSeconds,
          joinSp (current ++ [pyStrip w.word])⟩ ::
          wtsAux ws [] none w
      else
        wtsAux ws (current ++ [pyStrip w.word]) (some (cs.getD w.startSeconds)) w) := by
  by_cases hT : endsTerminal (pyStrip w.word)
  · simp only [wtsAux, segLoop, hT, if_true, List.getLastD_cons, List.nil_append]
    rw [segLoop_acc ws [⟨cs.getD w.startSeconds, w.endSeconds,
      joinSp (current ++ [pyStrip w.word])⟩] [] none]
    simp
  · rw [Bool.not_eq_true] at hT
    simp only [wtsAux, segLoop, hT, Bool.false_eq_true, if_false,
      List.getLastD_cons]

lemma splitAfterTerminal_cons_true (w : TWord) (ws : List TWord)
    (h : endsTerminal (pyStrip w.word) = true) :
    splitAfterTerminal (w :: ws) = [w] :: splitAfterTerminal ws := by
  simp [splitAfterTerminal, h]

lemma splitAfterTerminal_cons_false (w : TWord) (ws : List TWord)
    (h : endsTerminal (pyStrip w.word) = false) :
    splitAfterTerminal (w :: ws) =
      (match splitAfterTerminal ws with
       | [] => [[w]]
       | c :: cs => (w :: c) :: cs) := by
  simp [splitAfterTerminal, h]

/-- `splitAfterTerminal` never returns on non-empty input the empty list. -/
lemma splitAfterTerminal_ne_nil (w : TWord) (ws : List TWord) :
    splitAfterTerminal (w :: ws) ≠ [] := by
  by_cases hT : endsTerminal (pyStrip w.word)
  · rw [splitAfterTerminal_cons_true _ _ hT]
    simp
  · rw [Bool.not_eq_true] at hT
    rw [splitAfterTerminal_cons_false _ _ hT]
    cases splitAfterTerminal ws <;> simp

/-- No chunk produced by `splitAfterTerminal` is empty. -/
lemma splitAfterTerminal_no_nil (ws : List TWord) :
    [] ∉ splitAfterTerminal ws := by
  induction ws with
  | nil => simp [splitAfterTerminal]
  | cons w ws ih =>
      by_cases hT : endsTerminal (pyStrip w.word)
      · rw [splitAfterTerminal_cons_true _ _ hT]
        simp only [List.mem_cons]
        rintro (h | h)
        · exact List.cons_ne_nil _ _ h.symm
        · exact ih h
      · rw [Bool.not_eq_true] at hT
        rw [splitAfterTerminal_cons_false _ _ hT]
        cases hS : splitAfterTerminal ws with
        | nil => simp
        | cons c cs =>
            simp only [List.mem_cons]
            rintro (h | h)
            · exact List.cons_ne_nil _ _ h.symm
            · exact ih (by rw [hS]; exact List.mem_cons_of_mem _ h)

lemma mergedChunkSeg_nil_none (c : List TWord) :
    mergedChunkSeg [] none c = segOfChunk c := by
  simp [mergedChunkSeg, segOfChunk]

/-- Main generalized correspondence between the loop and the chunk spec. -/
lemma wtsAux_spec (ws : List TWord) (current : List String) (cs : Option ℚ)
    (prev : TWord) (hne : ws ≠ []) :
    wtsAux ws current cs prev =
      (match splitAfterTerminal ws with
       | [] => []
       | c :: rest => mergedChunkSeg current cs c :: rest.map segOfChunk) := by
  induction ws generalizing current cs prev with
  | nil => exact absurd rfl hne
  | cons w ws ih =>
      rw [wtsAux_cons]
      by_cases hT : endsTerminal (pyStrip w.word)
      · simp only [hT, if_true]
        cases ws with
        | nil =>
            simp [wtsAux, segLoop, splitAfterTerminal, hT, mergedChunkSeg]
        | cons w' ws' =>
            rw [ih _ _ _ (by simp)]
            rw [splitAfterTerminal_cons_true _ _ hT]
            cases hS : splitAfterTerminal (w' :: ws') with
            | nil => exact absurd hS (splitAfterTerminal_ne_nil w' ws')
            | cons c rest =>
                simp [mergedChunkSeg, segOfChunk, hT, mergedChunkSeg_nil_none]
      · rw [Bool.not_eq_true] at hT
        simp only [hT, Bool.false_eq_true, if_false]
        cases ws with
        | nil =>
            rw [splitAfterTerminal_cons_false _ _ hT]
            simp only [splitAfterTerminal]
            simp [wtsAux, segLoop, mergedChunkSeg, hT, trailStart]
        | cons w' ws' =>
            rw [ih _ _ _ (by simp)]
            rw [splitAfterTerminal_cons_false _ _ hT]
            cases hS : splitAfterTerminal (w' :: ws') with
            | nil => exact absurd hS (splitAfterTerminal_ne_nil w' ws')
            | cons c rest =>
                have hcne : c ≠ [] := by
                  intro hc
                  exact splitAfterTerminal_no_nil (w' :: ws')
                    (by rw [hS, hc]; exact List.mem_cons_self _ _)
                simp only
                congr 1
                cases c with
                | nil => exact absurd rfl hcne
                | cons c0 ctl =>
                    simp [mergedChunkSeg, List.headI, List.getLastD_cons]

lemma words_to_segments_eq_wtsAux (words : List TWord) (hne : words ≠ []) :
    words_to_segments words = wtsAux words [] none default := by
  simp only [words_to_segments, wtsAux, List.isEmpty_eq_true, hne, if_false]
  rcases h : segLoop words [] [] none with ⟨segs, cur, cstart⟩
  by_cases hc : cur = []
  · simp [hc]
  · cases cstart <;> simp [hc, trailStart]

/-- C8 (amended): `words_to_segments` closes a segment exactly at words whose
(stripped) text ends in `.`, `!` or `?`; trailing words form one final
segment; each segment's text is the words joined by spaces, its end is its
last word's `endSeconds`, and its start is its first word's `startSeconds` —
except that the final unterminated segment falls back to the *last* word's
`startSeconds` when the first word's `startSeconds` equals `0.0` (Python
truthiness of `current_start or last_word.get("startSeconds", 0.0)`).  An
empty word list yields an empty segment list.  All of this is captured by the
equation with the chunk decomposition `splitAfterTerminal` and per-chunk
segment `segOfChunk`. -/
theorem claim_C8_words_to_segments_spec (words : List TWord) :
    words_to_segments words = (splitAfterTerminal words).map segOfChunk := by
  cases words with
  | nil => rfl
  | cons w ws =>
      rw [words_to_segments_eq_wtsAux _ (by simp),
        wtsAux_spec _ _ _ _ (by simp)]
      cases hS : splitAfterTerminal (w :: ws) with
      | nil => exact absurd hS (splitAfterTerminal_ne_nil w ws)
      | cons c rest => simp [mergedChunkSeg_nil_none]

/-- C8 counterexample: for the two unterminated words
`("hello", 0.0, 1.0), ("world", 1.0, 2.0)` the produced (single, trailing)
segment has start `1.0` — the *last* word's start — not its first word's
start `0.0`, refuting "every produced segment's start equals its first word's
startSeconds" as stated. -/
theorem claim_C8_counterexample :
    words_to_segments [⟨"hello", 0, 1⟩, ⟨"world", 1, 2⟩]
        = [⟨1, 2, "hello world"⟩] ∧
      (⟨"hello", 0, 1⟩ : TWord).startSeconds = 0 ∧ (1 : ℚ) ≠ 0 := by
  refine ⟨by decide, rfl, by norm_num⟩

/-! ## AI response parsing (`gemini_service.py`) -/

/-- A parsed JSON value — the possible results of `json.loads`. -/
inductive Json where
  | null
  | bool (b : Bool)
  | num (q : ℚ)
  | str (s : String)
  | arr (items : List Json)
  | obj (fields : List (String × Json))

/-- Python `s.startswith(pre)` (character-level). -/
def pyStartswith (s pre : String) : Bool := pre.data.isPrefixOf s.data

/-- Python `s.endswith(suf)` (character-level). -/
def pyEndswith (s suf : String) : Bool := suf.data.isSuffixOf s.data

/-- Python `s[n:]` (character slicing). -/
def pyDrop (s : String) (n : ℕ) : String := ⟨s.data.drop n⟩

/-- Python `s[:-n]` for `n ≤ len(s)` (character slicing). -/
def pyDropRight (s : String) (n : ℕ) : String := ⟨s.data.take (s.data.length - n)⟩

/-- The code-fence stripping of `analyze_media_and_select_segments`
(gemini_service.py lines 110-119): strip whitespace, drop a leading
"```json" or "```", drop a trailing "```", strip again. -/
def stripCodeFences (s : String) : String :=
  let t := pyStrip s
  let t := if pyStartswith t "```json" then pyDrop t 7 else t
  let t := if pyStartswith t "```" then pyDrop t 3 else t
  let t := if pyEndswith t "```" then pyDropRight t 3 else t
  pyStrip t

/-- Contiguous-subsequence test: Python `needle in haystack` for strings. -/
def containsSeq (needle : List Char) : List Char → Bool
  | [] => needle.isEmpty
  | c :: rest => needle.isPrefixOf (c :: rest) || containsSeq needle rest

/-- Python `k in j` for a parsed JSON value `j`: key lookup on a dict,
element membership on a list, substring test on a string, and a `TypeError`
on the non-container values. -/
def pyContains (j : Json) (k : String) : Except String Bool :=
  match j with
  | .obj fields => .ok (fields.any (fun p => p.1 == k))
  | .arr items =>
      .ok (items.any (fun it =>
        match it with
        | .str s => s == k
        | _ => false))
  | .str s => .ok (containsSeq k.data s.data)
  | _ => .error "TypeError: argument is not iterable"

/-- `analyze_media_and_select_segments` response validation
(gemini_service.py lines 110-131).  The external `json.loads` is the
`parse` oracle: `.error msg` models a raised `json.JSONDecodeError`
carrying its own message, which the `except` block's bare `raise`
re-raises unchanged (lines 129-131).  The two `not in` checks mirror
lines 124-125, short-circuiting like Python `or`. -/
def analyze_media_and_select_segments (parse : String → Except String Json)
    (respText : String) : Except String Json :=
  let t := stripCodeFences respText
  match parse t with
  | .error e => .error e
  | .ok result =>
      match pyContains result "analysis" with
      | .error e => .error e
      | .ok hasA =>
          if !hasA then .error "Incomplete Gemini response"
          else
            match pyContains result "segments" with
            | .error e => .error e
            | .ok hasS =>
                if !hasS then .error "Incomplete Gemini response"
                else .ok result

/-- Spec-side "has the required field": only a JSON object can have a field. -/
def hasKeyObj (j : Json) (k : String) : Bool :=
  match j with
  | .obj fields => fields.any (fun p => p.1 == k)
  | _ => false

/-! ## Job model (`app/core/models.py`) -/

/-- `JobStatus` enumeration (models.py lines 22-32). -/
inductive JobStatus where
  | QUEUED
  | DOWNLOADING
  | EXTRACTING_AUDIO
  | UPLOADING_GCS
  | ASR_RUNNING
  | GEMINI_RUNNING
  | COMPLETED
  | FAILED
  deriving Repr, DecidableEq, Inhabited

/-- Legacy `SourceType` enumeration. -/
inductive SourceType where
  | UPLOAD
  | YOUTUBE
  deriving Repr, DecidableEq, Inhabited

/-- `MediaSourceKind` enumeration. -/
inductive MediaSourceKind where
  | YOUTUBE
  | FILE
  deriving Repr, DecidableEq, Inhabited

/-- The fields of a `MediaSource` row read by the orchestrator. -/
structure MediaSrc where
  source_kind : MediaSourceKind
  youtube_url : Option String
  storage_path : Option String
  deriving Repr, DecidableEq, Inhabited

/-- The fields of a `Job` row read or written by the orchestrator. -/
structure JobRec where
  status : JobStatus
  progress : ℚ
  error : Option String
  media_source_id : Option String
  source_type : Option SourceType
  youtube_url : Option String
  upload_id : Option String
  target_lang : Option String
  deriving Repr, DecidableEq, Inhabited

/-! ## Typed stage outputs -/

/-- One vocabulary item of a Gemini segment (`seg["items"][i]`), fields read
with `.get(key, "")`. -/
structure VocabItem where
  term : Option String
  meaningKo : Option String
  exampleEn : Option String
  deriving Repr, DecidableEq, Inhabited

/-- One Gemini-selected segment, in the well-typed shape the orchestrator
reads at tasks.py lines 145-222 (`startSec`/`endSec` present and numeric;
the optional keys read with `.get`). -/
structure GSeg where
  startSec : ℚ
  endSec : ℚ
  sentence : Option String
  reason : Option String
  suggestedActivity : Option String
  items : List VocabItem
  deriving Repr, DecidableEq, Inhabited

/-- The Gemini stage result as consumed by the orchestrator:
`analysisText` models `json.dumps(analysis_data)` (tasks.py line 121),
`segments` the `"segments"` list. -/
structure GemOut where
  analysisText : String
  segments : List GSeg
  deriving Repr, DecidableEq, Inhabited

/-- Google STT result for one cut segment
(`{"words": [...], "transcript": ...}`, segment-relative timestamps). -/
structure SttRes where
  words : List TWord
  transcript : String
  deriving Repr, DecidableEq, Inhabited

/-! ## Persistent rows.

`Modelled from the spec:` the ORM classes `DailyLesson`,
`DailyLessonItemModel`, `Transcript`, `TranscriptSegment` and
`TranscriptWordModel` imported by tasks.py are absent from
`app/core/models.py` in the source tree; their column shapes are taken from
§3 of the specification (LessonSegment, VocabularyItem, Transcript,
TranscriptWord) and from the constructor calls in tasks.py. -/

/-- A `DailyLesson` row (the spec's LessonSegment), as built at tasks.py
lines 188-197. -/
structure LessonRow where
  idx : ℕ
  start_sec : ℚ
  end_sec : ℚ
  sentence : String
  reason : Option String
  suggested_activity : Option String
  clip_audio_url : String
  deriving Repr, DecidableEq, Inhabited

/-- A `DailyLessonItemModel` row (the spec's VocabularyItem), tasks.py lines
206-213.  `lessonIdx` models `daily_lesson_id` through the owning lesson's
`idx` (the flushed surrogate id is opaque). -/
structure VocaRow where
  lessonIdx : ℕ
  idx : ℕ
  term : String
  meaning_ko : String
  example_en : String
  deriving Repr, DecidableEq, Inhabited

/-- A `TranscriptWordModel` row, tasks.py lines 231-238. -/
structure WordRow where
  idx : ℕ
  start_sec : ℚ
  end_sec : ℚ
  word : String
  deriving Repr, DecidableEq, Inhabited

/-- A `TranscriptSegment` row, tasks.py lines 216-222. -/
structure SegRow where
  idx : ℕ
  start_sec : ℚ
  end_sec : ℚ
  text : String
  deriving Repr, DecidableEq, Inhabited

/-- The job's `Transcript` row (language + full text), tasks.py lines 137-143
and 225-228. -/
structure TransRec where
  language : String
  full_text : String
  deriving Repr, DecidableEq, Inhabited

/-- The `JobResult` meta row, tasks.py lines 242-249 (raw JSON payloads are
opaque to the claims and elided). -/
structure MetaRow where
  result_type : String
  analysis : String
  deriving Repr, DecidableEq, Inhabited

/-- A committed view of the job's mutable fields (one entry per
`db.commit()`). -/
structure Snapshot where
  status : JobStatus
  progress : ℚ
  error : Option String
  deriving Repr, DecidableEq, Inhabited

/-- The SQLAlchemy session: in-memory job object, the history of committed
job snapshots, pending (added, uncommitted) vs committed rows, the local
filesystem, the `segment_files` local list, and per-stage call counters. -/
structure Session where
  job : Snapshot
  trace : List Snapshot
  pendingLessons : List LessonRow
  committedLessons : List LessonRow
  pendingVoca : List VocaRow
  committedVoca : List VocaRow
  pendingWords : List WordRow
  committedWords : List WordRow
  pendingSegRows : List SegRow
  committedSegRows : List SegRow
  transcript : Option TransRec
  committedTranscript : Option TransRec
  pendingMeta : List MetaRow
  committedMeta : List MetaRow
  fs : List String
  segFiles : List String
  acquireCalls : ℕ
  geminiCalls : ℕ
  sttCalls : ℕ

/-- The empty initial session. -/
def initSession : Session :=
  { job := ⟨.QUEUED, 0, none⟩
    trace := []
    pendingLessons := [], committedLessons := []
    pendingVoca := [], committedVoca := []
    pendingWords := [], committedWords := []
    pendingSegRows := [], committedSegRows := []
    transcript := none, committedTranscript := none
    pendingMeta := [], committedMeta := []
    fs := [], segFiles := []
    acquireCalls := 0, geminiCalls := 0, sttCalls := 0 }

/-- `db.commit()`: durably record the job's current fields and move every
pending row to the committed store. -/
def commit (s : Session) : Session :=
  { s with
    trace := s.trace ++ [s.job]
    committedLessons := s.committedLessons ++ s.pendingLessons
    pendingLessons := []
    committedVoca := s.committedVoca ++ s.pendingVoca
    pendingVoca := []
    committedWords := s.committedWords ++ s.pendingWords
    pendingWords := []
    committedSegRows := s.committedSegRows ++ s.pendingSegRows
    pendingSegRows := []
    committedTranscript := s.transcript
    committedMeta := s.committedMeta ++ s.pendingMeta
    pendingMeta := [] }

/-- `job.status = st; job.progress = p` (in memory, not yet committed). -/
def setJob (s : Session) (st : JobStatus) (p : ℚ) : Session :=
  { s with job := { s.job with status := st, progress := p } }

/-- The `except` handler (tasks.py lines 257-263): set FAILED and the error
string, commit, re-raise. -/
def failCommit (s : Session) (e : String) : Session :=
  commit { s with job := { s.job with status := .FAILED, error := some e } }

/-! ## The environment: external collaborators as oracles -/

/-- Everything outside the orchestrator: the DB rows it loads and the
outcome of each external call.  Per-segment collaborator calls are indexed
by the segment's position. -/
structure Env where
  job : Option JobRec
  mediaSource : Option MediaSrc
  ytResult : Except String Unit
  s3Download : Except String Unit
  extractFile : Except String Unit
  gemini : Except String GemOut
  cutFlac : ℕ → Except String Unit
  stt : ℕ → Except String SttRes
  cutMp3 : ℕ → Except String Unit
  upload : ℕ → Except String Unit

/-! Temp-file paths built by `process_job`. -/

def tempAudioPath (jid : String) : String := "/tmp/" ++ jid ++ ".flac"

def uploadPath (jid : String) : String := "/tmp/upload_" ++ jid

def segFlacPath (jid : String) (idx : ℕ) : String :=
  "/tmp/" ++ jid ++ "_seg_" ++ toString idx ++ ".flac"

def segMp3Path (jid : String) (idx : ℕ) : String :=
  "/tmp/" ++ jid ++ "_seg_" ++ toString idx ++ ".mp3"

/-- The clip URL built at tasks.py lines 178-182 (bucket / CloudFront domain
from settings elided to the object key). -/
def clipUrl (jid : String) (idx : ℕ) : String :=
  "lessons/" ++ jid ++ "/segment_" ++ toString idx ++ ".mp3"

/-- Python `a or b` for an optional string (`None` and `""` are falsy). -/
def pyOrStr (a : Option String) (b : String) : String :=
  match a with
  | some s => if s = "" then b else s
  | none => b

/-- `job.target_lang or "en-US"`. -/
def langOf (j : JobRec) : String := pyOrStr j.target_lang "en-US"

/-- The per-iteration progress value
`0.60 + (0.30 * (idx / total_segments if total_segments > 0 else 1))`. -/
def progAt (total k : ℕ) : ℚ :=
  3/5 + 3/10 * (if 0 < total then (k : ℚ) / (total : ℚ) else 1)

/-! ## Stage 2: input acquisition (tasks.py lines 82-103) -/

/-- Acquire input: YouTube download or S3 download + extraction, branching on
`media_source.source_kind` or the legacy `job.source_type`; with neither set,
acquisition is a no-op.  On success the extracted `/tmp/{job_id}.flac`
exists; the intermediate upload file is removed by `cleanup_ffmpeg_file`
(which swallows deletion errors — modelled as a successful removal). -/
def runAcquire (env : Env) (jid : String) (j : JobRec) (ms : Option MediaSrc)
    (s : Session) : Except String Unit × Session :=
  let s := { s with acquireCalls := s.acquireCalls + 1 }
  let viaYoutube : Except String Unit × Session :=
    match env.ytResult with
    | .ok _ => (.ok (), { s with fs := s.fs ++ [tempAudioPath jid] })
    | .error e => (.error e, s)
  let viaFile : Except String Unit × Session :=
    match env.s3Download with
    | .error e => (.error e, s)
    | .ok _ =>
        let s := { s with fs := s.fs ++ [uploadPath jid] }
        match env.extractFile with
        | .error e => (.error e, s)
        | .ok _ =>
            (.ok (), { s with
              fs := (s.fs ++ [tempAudioPath jid]).erase (uploadPath jid) })
  match ms with
  | some m =>
      match m.source_kind with
      | .YOUTUBE => viaYoutube
      | .FILE => viaFile
  | none =>
      match j.source_type with
      | some .YOUTUBE => viaYoutube
      | some .UPLOAD => viaFile
      | none => (.ok (), s)

/-! ## Stage 4: per-segment loop (tasks.py lines 145-222) -/

/-- The expected vocabulary rows of segment `idx` (tasks.py lines 205-213):
`enumerate(seg.get("items", []))` with `.get(key, "")` defaults. -/
def vocaRowsOf (idx : ℕ) (g : GSeg) : List VocaRow :=
  g.items.enum.map (fun p =>
    ⟨idx, p.1, p.2.term.getD "", p.2.meaningKo.getD "", p.2.exampleEn.getD ""⟩)

/-- One pass of `for idx, seg in enumerate(selected_segments)` plus the
recursion on the remaining segments.  Each iteration: progress commit (which
also persists the previous iteration's pending rows), FLAC cut, STT,
absolute re-basing of word times by `+ start_sec`, MP3 cut, S3 upload, then
`db.add` of the lesson row, its vocabulary rows, and the transcript-segment
row. -/
def processSegs (env : Env) (jid : String) (total : ℕ) :
    List GSeg → ℕ → List TWord → Session → Except String (List TWord) × Session
  | [], _, allWords, s => (.ok allWords, s)
  | seg :: rest, idx, allWords, s =>
      let s := commit (setJob s s.job.status (progAt total idx))
      match env.cutFlac idx with
      | .error e => (.error e, s)
      | .ok _ =>
          let s := { s with
            fs := s.fs ++ [segFlacPath jid idx]
            segFiles := s.segFiles ++ [segFlacPath jid idx] }
          let s := { s with sttCalls := s.sttCalls + 1 }
          match env.stt idx with
          | .error e => (.error e, s)
          | .ok r =>
              let segWords := r.words.map (fun w =>
                (⟨w.word, w.startSeconds + seg.startSec,
                  w.endSeconds + seg.startSec⟩ : TWord))
              let allWords := allWords ++ segWords
              match env.cutMp3 idx with
              | .error e => (.error e, s)
              | .ok _ =>
                  let s := { s with
                    fs := s.fs ++ [segMp3Path jid idx]
                    segFiles := s.segFiles ++ [segMp3Path jid idx] }
                  match env.upload idx with
                  | .error e => (.error e, s)
                  | .ok _ =>
                      let lesson : LessonRow :=
                        { idx := idx
                          start_sec := seg.startSec
                          end_sec := seg.endSec
                          sentence := pyOrStr seg.sentence r.transcript
                          reason := seg.reason
                          suggested_activity := seg.suggestedActivity
                          clip_audio_url := clipUrl jid idx }
                      let s := { s with
                        pendingLessons := s.pendingLessons ++ [lesson]
                        pendingVoca := s.pendingVoca ++ vocaRowsOf idx seg
                        pendingSegRows := s.pendingSegRows ++
                          [⟨idx, seg.startSec, seg.endSec, r.transcript⟩] }
                      processSegs env jid total rest (idx + 1) allWords s

/-! ## Result assembly tail (tasks.py lines 224-253) -/

/-- Insert a transcript-segment row into a list sorted by `idx`. -/
def insertByIdx (r : SegRow) : List SegRow → List SegRow
  | [] => [r]
  | x :: xs => if r.idx < x.idx then r :: x :: xs else x :: insertByIdx r xs

/-- `ORDER BY idx ASC` over the session's transcript-segment rows. -/
def sortByIdx : List SegRow → List SegRow
  | [] => []
  | r :: rs => insertByIdx r (sortByIdx rs)

/-- `Modelled from the spec:` the `TranscriptSegment` ORM class is absent
from `app/core/models.py`, so the row read `seg.get("text", "")` at
tasks.py line 225 cannot be traced to a class definition; per §4.6 of the
specification the Result Assembler computes the concatenated full text as
the join of the stored segment texts in index order. -/
def fullTextOf (rows : List SegRow) : String :=
  joinSp ((sortByIdx rows).map (fun r => r.text))

/-! ## The orchestrator `process_job` (tasks.py lines 40-277) -/

/-- The media-source row loaded at tasks.py lines 67-69: queried only when
`job.media_source_id` is set. -/
def msOf (env : Env) (j : JobRec) : Option MediaSrc :=
  if j.media_source_id.isSome then env.mediaSource else none

/-- The session right after the first commit (tasks.py lines 63-80): the job
row loaded, status DOWNLOADING, progress 0.1, committed. -/
def startSession (j : JobRec) : Session :=
  commit (setJob { initSession with job := ⟨j.status, j.progress, j.error⟩ }
    .DOWNLOADING (1/10))

/-- The session entering the segment loop (tasks.py lines 126-143): status
ASR_RUNNING at progress 0.60 committed, then the job Transcript row added. -/
def preLoop (j : JobRec) (s4 : Session) : Session :=
  { commit (setJob s4 .ASR_RUNNING (3/5)) with transcript := some ⟨langOf j, ""⟩ }

/-- The result-assembly tail (tasks.py lines 224-253): recompute the
transcript full text, add the word rows and the meta row, then commit
COMPLETED at progress 1.0. -/
def tailAssemble (j : JobRec) (g : GemOut) (allWords : List TWord)
    (s6 : Session) : Option String × Session :=
  let newTrans : TransRec :=
    ⟨langOf j, fullTextOf (s6.committedSegRows ++ s6.pendingSegRows)⟩
  let wordRows : List WordRow :=
    allWords.enum.map (fun p =>
      ⟨p.1, p.2.startSeconds, p.2.endSeconds, p.2.word⟩)
  let metaRow : MetaRow := ⟨"DAILY_LESSON_V2", g.analysisText⟩
  let s7 := { s6 with transcript := some newTrans }
  let s8 := { s7 with pendingWords := s7.pendingWords ++ wordRows }
  let s9 := { s8 with pendingMeta := s8.pendingMeta ++ [metaRow] }
  let s10 := commit (setJob s9 .COMPLETED 1)
  (none, s10)

/-- Steps 4-5 of `process_job` (tasks.py lines 126-253), after a successful
Gemini analysis. -/
def afterGemini (env : Env) (jid : String) (j : JobRec) (g : GemOut)
    (s4 : Session) : Option String × Session :=
  match processSegs env jid g.segments.length g.segments 0 [] (preLoop j s4) with
  | (.error e, s) => (some e, failCommit s e)
  | (.ok allWords, s6) => tailAssemble j g allWords s6

/-- The session state at the Gemini call (tasks.py lines 105-116): the
EXTRACTING_AUDIO and GEMINI_RUNNING commits, and the Gemini call counted. -/
def gemOkSession (s2 : Session) : Session :=
  let s3 := commit (setJob s2 JobStatus.EXTRACTING_AUDIO (1/4))
  let s4 := commit (setJob s3 .GEMINI_RUNNING (2/5))
  { s4 with geminiCalls := s4.geminiCalls + 1 }

/-- Steps 3-5 of `process_job` (tasks.py lines 105-253), after successful
acquisition. -/
def afterAcquire (env : Env) (jid : String) (j : JobRec) (s2 : Session) :
    Option String × Session :=
  match env.gemini with
  | .error e => (some e, failCommit (gemOkSession s2) e)
  | .ok g => afterGemini env jid j g (gemOkSession s2)

/-- The `try` body and `except` handler of `process_job`; returns the raised
error (if any) and the final session *before* the `finally` cleanup. -/
def processJobCore (env : Env) (jid : String) : Option String × Session :=
  match env.job with
  | none => (some ("Job not found: " ++ jid), initSession)
  | some j =>
      match runAcquire env jid j (msOf env j) (startSession j) with
      | (.error e, s) => (some e, failCommit s e)
      | (.ok _, s2) => afterAcquire env jid j s2

/-! ## Cleanup (`app/utils/file_cleanup.py` and tasks.py lines 265-277) -/

/-- `cleanup_file` (file_cleanup.py lines 11-30): delete the file if it
exists; a raised deletion error (`fail p = true`) is caught and reported as
`false`, leaving the file in place. -/
def cleanup_file (fail : String → Bool) (fs : List String) (p : String) :
    List String × Bool :=
  if p ∈ fs then
    if fail p then (fs, false) else (fs.erase p, true)
  else (fs, true)

/-- The glob pattern `*{job_id}*` over `/tmp`. -/
def matchesJob (jid : String) (p : String) : Bool := containsSeq jid.data p.data

/-- `cleanup_temp_files` (file_cleanup.py lines 33-45): delete every file
matching `*{job_id}*`, swallowing per-file failures. -/
def cleanup_temp_files (fail : String → Bool) (jid : String)
    (fs : List String) : List String :=
  (fs.filter (matchesJob jid)).foldl (fun acc p => (cleanup_file fail acc p).1) fs

/-- The `finally` block of `process_job` (tasks.py lines 265-277): delete the
temp audio file and the cut segment files, then `cleanup_temp_files(job_id)`.
Only the filesystem is touched. -/
def finallyCleanup (fail : String → Bool) (jid : String) (s : Session) :
    Session :=
  let fs1 := (cleanup_file fail s.fs (tempAudioPath jid)).1
  let fs2 := s.segFiles.foldl (fun acc p => (cleanup_file fail acc p).1) fs1
  { s with fs := cleanup_temp_files fail jid fs2 }

/-- `process_job(job_id)`: the `try`/`except` body followed by the `finally`
cleanup.  `fail` is the deletion-failure oracle of the filesystem. -/
def process_job (env : Env) (fail : String → Bool) (jid : String) :
    Option String × Session :=
  let r := processJobCore env jid
  (r.1, finallyCleanup fail jid r.2)

/-! ## Expected artifacts of a run (for the loop characterization) -/

/-- The acquisition outcome as a function of the environment only. -/
def acquireRes (env : Env) (j : JobRec) (ms : Option MediaSrc) :
    Except String Unit :=
  let viaFile : Except String Unit :=
    match env.s3Download with
    | .error e => .error e
    | .ok _ =>
        match env.extractFile with
        | .error e => .error e
        | .ok _ => .ok ()
  match ms with
  | some m =>
      match m.source_kind with
      | .YOUTUBE => env.ytResult
      | .FILE => viaFile
  | none =>
      match j.source_type with
      | some .YOUTUBE => env.ytResult
      | some .UPLOAD => viaFile
      | none => .ok ()

/-- The combined outcome of the external calls of loop iteration `i`
(FLAC cut, STT, MP3 cut, S3 upload, in that order). -/
def iterRes (env : Env) (i : ℕ) : Except String Unit :=
  match env.cutFlac i with
  | .error e => .error e
  | .ok _ =>
      match env.stt i with
      | .error e => .error e
      | .ok _ =>
          match env.cutMp3 i with
          | .error e => .error e
          | .ok _ => env.upload i

/-- The absolute-time word list contributed by segment `i`: the STT words
re-based by `+ startSec` on both endpoints (tasks.py lines 162-170). -/
def absWordsOfSeg (env : Env) (i : ℕ) (g : GSeg) : List TWord :=
  match env.stt i with
  | .ok r => r.words.map (fun w =>
      ⟨w.word, w.startSeconds + g.startSec, w.endSeconds + g.startSec⟩)
  | .error _ => []

/-- The accumulated absolute-time word list of the segments, indices starting
at `i`. -/
def expectedAbsWords (env : Env) : List GSeg → ℕ → List TWord
  | [], _ => []
  | g :: rest, i => absWordsOfSeg env i g ++ expectedAbsWords env rest (i + 1)

/-- The `DailyLesson` row built for segment `i` (tasks.py lines 184-197). -/
def lessonRowOf (env : Env) (jid : String) (i : ℕ) (g : GSeg) : LessonRow :=
  { idx := i
    start_sec := g.startSec
    end_sec := g.endSec
    sentence := pyOrStr g.sentence
      (match env.stt i with | .ok r => r.transcript | .error _ => "")
    reason := g.reason
    suggested_activity := g.suggestedActivity
    clip_audio_url := clipUrl jid i }

/-- The lesson rows of the segments, indices starting at `i`. -/
def expectedLessons (env : Env) (jid : String) : List GSeg → ℕ → List LessonRow
  | [], _ => []
  | g :: rest, i => lessonRowOf env jid i g :: expectedLessons env jid rest (i + 1)

/-- The vocabulary rows of the segments, lesson indices starting at `i`. -/
def expectedVoca : List GSeg → ℕ → List VocaRow
  | [], _ => []
  | g :: rest, i => vocaRowsOf i g ++ expectedVoca rest (i + 1)

/-- The snapshots committed by `m` loop iterations starting at index `i`:
status and error are carried unchanged, progress is the per-iteration
checkpoint. -/
def asrSnaps (st : JobStatus) (err : Option String) (total : ℕ) :
    ℕ → ℕ → List Snapshot
  | _, 0 => []
  | i, m + 1 => ⟨st, progAt total i, err⟩ :: asrSnaps st err total (i + 1) m

lemma iterRes_ok_parts {env : Env} {i : ℕ} (h : iterRes env i = .ok ()) :
    env.cutFlac i = .ok () ∧ (∃ r, env.stt i = .ok r) ∧
      env.cutMp3 i = .ok () ∧ env.upload i = .ok () := by
  unfold iterRes at h
  cases h1 : env.cutFlac i with
  | error e => rw [h1] at h; cases h
  | ok u =>
      rw [h1] at h
      cases h2 : env.stt i with
      | error e => rw [h2] at h; cases h
      | ok r =>
          rw [h2] at h
          cases h3 : env.cutMp3 i with
          | error e => rw [h3] at h; cases h
          | ok u3 =>
              rw [h3] at h
              cases u
              cases u3
              exact ⟨rfl, ⟨r, rfl⟩, rfl, h⟩

/-- Characterization of a fully successful run of the segment loop. -/
lemma processSegs_ok (env : Env) (jid : String) (total : ℕ) :
    ∀ (segs : List GSeg) (i0 : ℕ) (acc : List TWord) (s : Session)
      (r : Except String (List TWord)) (s' : Session),
      (∀ k, k < segs.length → iterRes env (i0 + k) = .ok ()) →
      processSegs env jid total segs i0 acc s = (r, s') →
      r = .ok (acc ++ expectedAbsWords env segs i0) ∧
      s'.trace = s.trace ++ asrSnaps s.job.status s.job.error total i0 segs.length ∧
      s'.job.status = s.job.status ∧
      s'.job.error = s.job.error ∧
      s'.committedLessons ++ s'.pendingLessons =
        s.committedLessons ++ s.pendingLessons ++ expectedLessons env jid segs i0 ∧
      s'.committedVoca ++ s'.pendingVoca =
        s.committedVoca ++ s.pendingVoca ++ expectedVoca segs i0 ∧
      s'.committedWords ++ s'.pendingWords = s.committedWords ++ s.pendingWords ∧
      s'.committedMeta ++ s'.pendingMeta = s.committedMeta ++ s.pendingMeta ∧
      s'.geminiCalls = s.geminiCalls ∧
      s'.acquireCalls = s.acquireCalls ∧
      s'.sttCalls ≤ s.sttCalls + segs.length := by
  intro segs
  induction segs with
  | nil =>
      intro i0 acc s r s' _ heq
      simp only [processSegs] at heq
      obtain ⟨hr, hs⟩ := Prod.mk.injEq .. ▸ heq
      subst hs
      simp [← hr, expectedAbsWords, expectedLessons, expectedVoca, asrSnaps]
  | cons seg rest ih =>
      intro i0 acc s r s' hok heq
      obtain ⟨hcf, ⟨rr, hstt⟩, hcm, hup⟩ :=
        iterRes_ok_parts (by simpa using hok 0 (by simp))
      simp only [processSegs, hcf, hstt, hcm, hup] at heq
      have hok2 : ∀ k, k < rest.length → iterRes env (i0 + 1 + k) = .ok () := by
        intro k hk
        have h := hok (k + 1) (by simpa using Nat.succ_lt_succ hk)
        rwa [show i0 + (k + 1) = i0 + 1 + k by omega] at h
      obtain ⟨c1, c2, c3, c4, c5, c6, c7, c8, c9, c10, c11⟩ :=
        ih (i0 + 1) _ _ r s' hok2 heq
      refine ⟨?_, ?_, ?_, ?_, ?_, ?_, ?_, ?_, ?_, ?_, ?_⟩
      · rw [c1]
        simp only [expectedAbsWords, absWordsOfSeg, hstt, List.append_assoc]
      · rw [c2]
        simp [commit, setJob, asrSnaps, List.append_assoc]
      · rw [c3]; simp [commit, setJob]
      · rw [c4]; simp [commit, setJob]
      · rw [c5]
        simp [commit, setJob, expectedLessons, lessonRowOf, hstt,
          List.append_assoc]
      · rw [c6]
        simp [commit, setJob, expectedVoca, List.append_assoc]
      · rw [c7]; simp [commit, setJob]
      · rw [c8]; simp [commit, setJob]
      · rw [c9]; simp [commit, setJob]
      · rw [c10]; simp [commit, setJob]
      · calc s'.sttCalls ≤ _ := c11
          _ ≤ s.sttCalls + (seg :: rest).length := by
            simp [commit, setJob]; omega

/-- Characterization of a failing run of the segment loop: the failure
happened at some iteration `m`, all prior iterations succeeded, exactly
`m + 1` progress snapshots were committed, and exactly the rows of the `m`
completed iterations are committed (none pending). -/
lemma processSegs_fail (env : Env) (jid : String) (total : ℕ) :
    ∀ (segs : List GSeg) (i0 : ℕ) (acc : List TWord) (s : Session)
      (e : String) (s' : Session),
      processSegs env jid total segs i0 acc s = (.error e, s') →
      ∃ m, m < segs.length ∧
        (∀ k, k < m → iterRes env (i0 + k) = .ok ()) ∧
        iterRes env (i0 + m) = .error e ∧
        s'.trace = s.trace ++ asrSnaps s.job.status s.job.error total i0 (m + 1) ∧
        s'.job = ⟨s.job.status, progAt total (i0 + m), s.job.error⟩ ∧
        s'.committedLessons = s.committedLessons ++ s.pendingLessons ++
          expectedLessons env jid (segs.take m) i0 ∧
        s'.pendingLessons = [] ∧
        s'.committedVoca = s.committedVoca ++ s.pendingVoca ++
          expectedVoca (segs.take m) i0 ∧
        s'.pendingVoca = [] ∧
        s'.committedWords = s.committedWords ++ s.pendingWords ∧
        s'.pendingWords = [] ∧
        s'.committedMeta = s.committedMeta ++ s.pendingMeta ∧
        s'.pendingMeta = [] ∧
        s'.geminiCalls = s.geminiCalls ∧
        s'.acquireCalls = s.acquireCalls ∧
        s'.sttCalls ≤ s.sttCalls + segs.length := by
  intro segs
  induction segs with
  | nil =>
      intro i0 acc s e s' heq
      simp [processSegs] at heq
  | cons seg rest ih =>
      intro i0 acc s e s' heq
      cases hcf : env.cutFlac i0 with
      | error e0 =>
          simp only [processSegs, hcf] at heq
          have he : e0 = e := by
            have h := congrArg Prod.fst heq
            simpa using h
          have hs : s' = commit (setJob s s.job.status (progAt total i0)) := by
            have h := congrArg Prod.snd heq
            exact h.symm
          subst he
          refine ⟨0, by simp, by omega, ?_, ?_, ?_, ?_, ?_, ?_, ?_, ?_, ?_, ?_,
            ?_, ?_, ?_, ?_⟩ <;>
            simp [hs, commit, setJob, iterRes, hcf, asrSnaps, expectedLessons,
              expectedVoca]
      | ok u0 =>
          cases u0
          cases hstt : env.stt i0 with
          | error e0 =>
              simp only [processSegs, hcf, hstt] at heq
              have he : e0 = e := by
                have h := congrArg Prod.fst heq
                simpa using h
              have hs : s' = { commit (setJob s s.job.status (progAt total i0)) with
                  fs := (commit (setJob s s.job.status (progAt total i0))).fs ++
                    [segFlacPath jid i0]
                  segFiles := (commit (setJob s s.job.status (progAt total i0))).segFiles
                    ++ [segFlacPath jid i0]
                  sttCalls := (commit (setJob s s.job.status (progAt total i0))).sttCalls
                    + 1 } := by
                have h := congrArg Prod.snd heq
                exact h.symm
              subst he
              refine ⟨0, by simp, by omega, ?_, ?_, ?_, ?_, ?_, ?_, ?_, ?_, ?_,
                ?_, ?_, ?_, ?_, ?_⟩ <;>
                simp [hs, commit, setJob, iterRes, hcf, hstt, asrSnaps,
                  expectedLessons, expectedVoca]
          | ok rr =>
              cases hcm : env.cutMp3 i0 with
              | error e0 =>
                  simp only [processSegs, hcf, hstt, hcm] at heq
                  have he : e0 = e := by
                    have h := congrArg Prod.fst heq
                    simpa using h
                  have hs : s' = { commit (setJob s s.job.status (progAt total i0)) with
                      fs := (commit (setJob s s.job.status (progAt total i0))).fs ++
                        [segFlacPath jid i0]
                      segFiles := (commit (setJob s s.job.status (progAt total i0))).segFiles
                        ++ [segFlacPath jid i0]
                      sttCalls := (commit (setJob s s.job.status (progAt total i0))).sttCalls
                        + 1 } := by
                    have h := congrArg Prod.snd heq
                    exact h.symm
                  subst he
                  refine ⟨0, by simp, by omega, ?_, ?_, ?_, ?_, ?_, ?_, ?_, ?_,
                    ?_, ?_, ?_, ?_, ?_, ?_⟩ <;>
                    simp [hs, commit, setJob, iterRes, hcf, hstt, hcm, asrSnaps,
                      expectedLessons, expectedVoca]
              | ok u2 =>
                  cases u2
                  cases hup : env.upload i0 with
                  | error e0 =>
                      simp only [processSegs, hcf, hstt, hcm, hup] at heq
                      have he : e0 = e := by
                        have h := congrArg Prod.fst heq
                        simpa using h
                      have hs : s' = { commit (setJob s s.job.status (progAt total i0)) with
                          fs := (commit (setJob s s.job.status (progAt total i0))).fs ++
                            [segFlacPath jid i0] ++ [segMp3Path jid i0]
                          segFiles := (commit (setJob s s.job.status (progAt total i0))).segFiles
                            ++ [segFlacPath jid i0] ++ [segMp3Path jid i0]
                          sttCalls := (commit (setJob s s.job.status (progAt total i0))).sttCalls
                            + 1 } := by
                        have h := congrArg Prod.snd heq
                        exact h.symm
                      subst he
                      refine ⟨0, by simp, by omega, ?_, ?_, ?_, ?_, ?_, ?_, ?_,
                        ?_, ?_, ?_, ?_, ?_, ?_, ?_⟩ <;>
                        simp [hs, commit, setJob, iterRes, hcf, hstt, hcm, hup,
                          asrSnaps, expectedLessons, expectedVoca]
                  | ok u3 =>
                      cases u3
                      simp only [processSegs, hcf, hstt, hcm, hup] at heq
                      obtain ⟨m, hm, hall, hfail, d1, d2, d3, d4, d5, d6, d7,
                        d8, d9, d10, d11, d12, d13⟩ := ih (i0 + 1) _ _ e s' heq
                      refine ⟨m + 1, by simpa using Nat.succ_lt_succ hm,
                        ?_, ?_, ?_, ?_, ?_, ?_, ?_, ?_, ?_, ?_, ?_, ?_, ?_, ?_, ?_⟩
                      · intro k hk
                        cases k with
                        | zero =>
                            simp [iterRes, hcf, hstt, hcm, hup]
                        | succ k' =>
                            have h := hall k' (by omega)
                            rwa [show i0 + 1 + k' = i0 + (k' + 1) by omega] at h
                      · rw [show i0 + (m + 1) = i0 + 1 + m by omega]
                        exact hfail
                      · rw [d1]
                        simp [commit, setJob, asrSnaps, List.append_assoc]
                      · rw [show i0 + (m + 1) = i0 + 1 + m by omega, d2]
                        simp [commit, setJob]
                      · rw [d3]
                        simp [commit, setJob, expectedLessons, lessonRowOf, hstt,
                          List.append_assoc]
                      · exact d4
                      · rw [d5]
                        simp [commit, setJob, expectedVoca, List.append_assoc]
                      · exact d6
                      · rw [d7]; simp [commit, setJob]
                      · exact d8
                      · rw [d9]; simp [commit, setJob]
                      · exact d10
                      · rw [d11]; simp [commit, setJob]
                      · rw [d12]; simp [commit, setJob]
                      · calc s'.sttCalls ≤ _ := d13
                          _ ≤ s.sttCalls + (seg :: rest).length := by
                            simp [commit, setJob]; omega

/-- Acquisition only touches `fs` and the acquisition call counter, and its
outcome is `acquireRes`. -/
lemma runAcquire_spec (env : Env) (jid : String) (j : JobRec)
    (ms : Option MediaSrc) (s : Session) :
    (runAcquire env jid j ms s).1 = acquireRes env j ms ∧
    (runAcquire env jid j ms s).2.trace = s.trace ∧
    (runAcquire env jid j ms s).2.job = s.job ∧
    (runAcquire env jid j ms s).2.committedLessons = s.committedLessons ∧
    (runAcquire env jid j ms s).2.pendingLessons = s.pendingLessons ∧
    (runAcquire env jid j ms s).2.committedVoca = s.committedVoca ∧
    (runAcquire env jid j ms s).2.pendingVoca = s.pendingVoca ∧
    (runAcquire env jid j ms s).2.committedWords = s.committedWords ∧
    (runAcquire env jid j ms s).2.pendingWords = s.pendingWords ∧
    (runAcquire env jid j ms s).2.committedMeta = s.committedMeta ∧
    (runAcquire env jid j ms s).2.pendingMeta = s.pendingMeta ∧
    (runAcquire env jid j ms s).2.transcript = s.transcript ∧
    (runAcquire env jid j ms s).2.geminiCalls = s.geminiCalls ∧
    (runAcquire env jid j ms s).2.sttCalls = s.sttCalls ∧
    (runAcquire env jid j ms s).2.acquireCalls = s.acquireCalls + 1 := by
  rcases ms with _ | m
  · rcases hst : j.source_type with _ | st
    · simp [runAcquire, acquireRes, hst]
    · cases st with
      | UPLOAD =>
          rcases h1 : env.s3Download with e | u
          · simp [runAcquire, acquireRes, hst, h1]
          · rcases h2 : env.extractFile with e | u2 <;>
              simp [runAcquire, acquireRes, hst, h1, h2]
      | YOUTUBE =>
          rcases h1 : env.ytResult with e | u <;>
            simp [runAcquire, acquireRes, hst, h1]
  · rcases hk : m.source_kind with _ | _
    · rcases h1 : env.ytResult with e | u <;>
        simp [runAcquire, acquireRes, hk, h1]
    · rcases h1 : env.s3Download with e | u
      · simp [runAcquire, acquireRes, hk, h1]
      · rcases h2 : env.extractFile with e | u2 <;>
          simp [runAcquire, acquireRes, hk, h1, h2]

/-- Either all of the first `n` iterations succeed or there is a first
failing one. -/
lemma first_failure (P : ℕ → Prop) [DecidablePred P] (n : ℕ) :
    (∀ k, k < n → P k) ∨ ∃ m, m < n ∧ (∀ k, k < m → P k) ∧ ¬P m := by
  induction n with
  | zero => left; omega
  | succ n ih =>
      rcases ih with h | ⟨m, hm, hall, hfail⟩
      · by_cases hn : P n
        · left
          intro k hk
          rcases Nat.lt_succ_iff_lt_or_eq.mp hk with h' | rfl
          · exact h k h'
          · exact hn
        · right; exact ⟨n, by omega, h, hn⟩
      · right; exact ⟨m, by omega, hall, hfail⟩

lemma except_not_ok {e : Except String Unit} (h : ¬e = .ok ()) :
    ∃ msg, e = .error msg := by
  cases e with
  | error msg => exact ⟨msg, rfl⟩
  | ok u => cases u; exact absurd rfl h

/-- Exhaustive case split of an environment's stage outcomes. -/
lemma env_split (env : Env) (j : JobRec) :
    (∃ e, acquireRes env j (msOf env j) = .error e) ∨
    (acquireRes env j (msOf env j) = .ok () ∧
      ((∃ e, env.gemini = .error e) ∨
        (∃ g, env.gemini = .ok g ∧
          ((∃ m e, m < g.segments.length ∧
              (∀ k, k < m → iterRes env k = .ok ()) ∧
              iterRes env m = .error e) ∨
            (∀ k, k < g.segments.length → iterRes env k = .ok ()))))) := by
  cases hA : acquireRes env j (msOf env j) with
  | error e => exact .inl ⟨e, rfl⟩
  | ok u =>
      cases u
      refine .inr ⟨rfl, ?_⟩
      cases hG : env.gemini with
      | error e => exact .inl ⟨e, rfl⟩
      | ok g =>
          refine .inr ⟨g, rfl, ?_⟩
          haveI : DecidablePred (fun k => iterRes env k = Except.ok ()) :=
            Classical.decPred _
          rcases first_failure (fun k => iterRes env k = .ok ())
              g.segments.length with h | ⟨m, hm, hall, hfail⟩
          · exact .inr h
          · obtain ⟨msg, hmsg⟩ := except_not_ok hfail
            exact .inl ⟨m, msg, hm, hall, hmsg⟩

/-- Run outcome when acquisition fails. -/
lemma core_acqfail (env : Env) (jid : String) (j : JobRec) (e : String)
    (hj : env.job = some j)
    (hacq : acquireRes env j (msOf env j) = .error e) :
    (processJobCore env jid).1 = some e ∧
    (processJobCore env jid).2.trace =
      [⟨.DOWNLOADING, 1/10, j.error⟩, ⟨.FAILED, 1/10, some e⟩] ∧
    (processJobCore env jid).2.committedLessons = [] ∧
    (processJobCore env jid).2.committedVoca = [] ∧
    (processJobCore env jid).2.committedWords = [] ∧
    (processJobCore env jid).2.geminiCalls = 0 ∧
    (processJobCore env jid).2.sttCalls = 0 ∧
    (processJobCore env jid).2.acquireCalls = 1 := by
  obtain ⟨a1, a2, a3, a4, a5, a6, a7, a8, a9, a10, a11, a12, a13, a14, a15⟩ :=
    runAcquire_spec env jid j (msOf env j) (startSession j)
  have h1 : (runAcquire env jid j (msOf env j) (startSession j)).1 = .error e :=
    a1.trans hacq
  rcases hA : runAcquire env jid j (msOf env j) (startSession j) with ⟨rA, sA⟩
  rw [hA] at h1 a2 a3 a4 a5 a6 a7 a8 a9 a10 a11 a13 a14 a15
  simp only at h1 a2 a3 a4 a5 a6 a7 a8 a9 a10 a11 a13 a14 a15
  subst h1
  have hcore : processJobCore env jid = (some e, failCommit sA e) := by
    simp [processJobCore, hj, hA]
  rw [hcore]
  refine ⟨rfl, ?_, ?_, ?_, ?_, ?_, ?_, ?_⟩ <;>
    simp [failCommit, commit, setJob, a2, a3, a4, a5,
      a6, a7, a8, a9, a10, a11, a13, a14, a15, startSession, initSession]

/-- `afterAcquire` outcome when the Gemini call raises. -/
lemma afterAcquire_gemfail (env : Env) (jid : String) (j : JobRec)
    (s2 : Session) (e : String) (hG : env.gemini = .error e) :
    (afterAcquire env jid j s2).1 = some e ∧
    (afterAcquire env jid j s2).2.trace = s2.trace ++
      [⟨JobStatus.EXTRACTING_AUDIO, 1/4, s2.job.error⟩,
        ⟨.GEMINI_RUNNING, 2/5, s2.job.error⟩,
        ⟨.FAILED, 2/5, some e⟩] ∧
    (afterAcquire env jid j s2).2.committedLessons =
      s2.committedLessons ++ s2.pendingLessons ∧
    (afterAcquire env jid j s2).2.committedVoca =
      s2.committedVoca ++ s2.pendingVoca ∧
    (afterAcquire env jid j s2).2.committedWords =
      s2.committedWords ++ s2.pendingWords ∧
    (afterAcquire env jid j s2).2.geminiCalls = s2.geminiCalls + 1 ∧
    (afterAcquire env jid j s2).2.sttCalls = s2.sttCalls ∧
    (afterAcquire env jid j s2).2.acquireCalls = s2.acquireCalls := by
  refine ⟨?_, ?_, ?_, ?_, ?_, ?_, ?_, ?_⟩ <;>
    simp [afterAcquire, hG, failCommit, gemOkSession, commit, setJob]

/-- Run outcome when acquisition succeeds and the Gemini call raises. -/
lemma core_gemfail (env : Env) (jid : String) (j : JobRec) (e : String)
    (hj : env.job = some j)
    (hacq : acquireRes env j (msOf env j) = .ok ())
    (hG : env.gemini = .error e) :
    (processJobCore env jid).1 = some e ∧
    (processJobCore env jid).2.trace =
      [⟨.DOWNLOADING, 1/10, j.error⟩, ⟨JobStatus.EXTRACTING_AUDIO, 1/4, j.error⟩,
        ⟨.GEMINI_RUNNING, 2/5, j.error⟩, ⟨.FAILED, 2/5, some e⟩] ∧
    (processJobCore env jid).2.committedLessons = [] ∧
    (processJobCore env jid).2.committedVoca = [] ∧
    (processJobCore env jid).2.committedWords = [] ∧
    (processJobCore env jid).2.geminiCalls = 1 ∧
    (processJobCore env jid).2.sttCalls = 0 ∧
    (processJobCore env jid).2.acquireCalls = 1 := by
  obtain ⟨a1, a2, a3, a4, a5, a6, a7, a8, a9, a10, a11, a12, a13, a14, a15⟩ :=
    runAcquire_spec env jid j (msOf env j) (startSession j)
  have h1 : (runAcquire env jid j (msOf env j) (startSession j)).1 = .ok () :=
    a1.trans hacq
  rcases hA : runAcquire env jid j (msOf env j) (startSession j) with ⟨rA, sA⟩
  rw [hA] at h1 a2 a3 a4 a5 a6 a7 a8 a9 a10 a11 a13 a14 a15
  simp only at h1 a2 a3 a4 a5 a6 a7 a8 a9 a10 a11 a13 a14 a15
  subst h1
  have hcore : processJobCore env jid = afterAcquire env jid j sA := by
    simp [processJobCore, hj, hA]
  obtain ⟨b1, b2, b3, b4, b5, b6, b7, b8⟩ :=
    afterAcquire_gemfail env jid j sA e hG
  rw [hcore]
  refine ⟨b1, ?_, ?_, ?_, ?_, ?_, ?_, ?_⟩ <;>
    simp [b2, b3, b4, b5, b6, b7, b8, a2, a3, a4, a5, a6, a7, a8, a9, a13,
      a14, a15, startSession, commit, setJob, initSession]

/-- If the first loop failure is at index `m`, the loop raises that error. -/
lemma processSegs_fails_fst (env : Env) (jid : String) (total : ℕ) :
    ∀ (segs : List GSeg) (i0 m : ℕ) (acc : List TWord) (s : Session)
      (e : String),
      m < segs.length →
      (∀ k, k < m → iterRes env (i0 + k) = .ok ()) →
      iterRes env (i0 + m) = .error e →
      (processSegs env jid total segs i0 acc s).1 = .error e := by
  intro segs
  induction segs with
  | nil =>
      intro i0 m acc s e hm
      simp at hm
  | cons seg rest ih =>
      intro i0 m acc s e hm hall hfail
      cases m with
      | zero =>
          rw [Nat.add_zero] at hfail
          unfold iterRes at hfail
          cases hcf : env.cutFlac i0 with
          | error e0 =>
              rw [hcf] at hfail
              injection hfail with h
              subst h
              simp [processSegs, hcf]
          | ok u =>
              cases u
              rw [hcf] at hfail
              cases hstt : env.stt i0 with
              | error e0 =>
                  rw [hstt] at hfail
                  injection hfail with h
                  subst h
                  simp [processSegs, hcf, hstt]
              | ok r =>
                  rw [hstt] at hfail
                  cases hcm : env.cutMp3 i0 with
                  | error e0 =>
                      rw [hcm] at hfail
                      injection hfail with h
                      subst h
                      simp [processSegs, hcf, hstt, hcm]
                  | ok u2 =>
                      cases u2
                      rw [hcm] at hfail
                      cases hup : env.upload i0 with
                      | error e0 =>
                          rw [hup] at hfail
                          injection hfail with h
                          subst h
                          simp [processSegs, hcf, hstt, hcm, hup]
                      | ok u3 =>
                          cases u3
                          rw [hup] at hfail
                          cases hfail
      | succ m' =>
          have h0 := hall 0 (by omega)
          rw [Nat.add_zero] at h0
          obtain ⟨hcf, ⟨r, hstt⟩, hcm, hup⟩ := iterRes_ok_parts h0
          simp only [processSegs, hcf, hstt, hcm, hup]
          refine ih (i0 + 1) m' _ _ e (by simpa using Nat.lt_of_succ_lt_succ hm)
            ?_ ?_
          · intro k hk
            have h := hall (k + 1) (by omega)
            rwa [show i0 + (k + 1) = i0 + 1 + k by omega] at h
          · rwa [show i0 + (m' + 1) = i0 + 1 + m' by omega] at hfail

/-- `afterGemini` outcome when every loop iteration succeeds. -/
lemma afterGemini_ok (env : Env) (jid : String) (j : JobRec) (g : GemOut)
    (s4 : Session)
    (hok : ∀ k, k < g.segments.length → iterRes env k = .ok ()) :
    (afterGemini env jid j g s4).1 = none ∧
    (afterGemini env jid j g s4).2.trace = s4.trace ++
      [⟨.ASR_RUNNING, 3/5, s4.job.error⟩] ++
      asrSnaps .ASR_RUNNING s4.job.error g.segments.length 0 g.segments.length ++
      [⟨.COMPLETED, 1, s4.job.error⟩] ∧
    (afterGemini env jid j g s4).2.committedLessons =
      s4.committedLessons ++ s4.pendingLessons ++
        expectedLessons env jid g.segments 0 ∧
    (afterGemini env jid j g s4).2.committedVoca =
      s4.committedVoca ++ s4.pendingVoca ++ expectedVoca g.segments 0 ∧
    (afterGemini env jid j g s4).2.committedWords =
      s4.committedWords ++ s4.pendingWords ++
        (expectedAbsWords env g.segments 0).enum.map
          (fun p => ⟨p.1, p.2.startSeconds, p.2.endSeconds, p.2.word⟩) ∧
    (afterGemini env jid j g s4).2.geminiCalls = s4.geminiCalls ∧
    (afterGemini env jid j g s4).2.sttCalls ≤
      s4.sttCalls + g.segments.length ∧
    (afterGemini env jid j g s4).2.acquireCalls = s4.acquireCalls := by
  rcases hL : processSegs env jid g.segments.length g.segments 0 []
      (preLoop j s4) with ⟨rL, sL⟩
  have hok' : ∀ k, k < g.segments.length → iterRes env (0 + k) = .ok () := by
    intro k hk
    simpa using hok k hk
  obtain ⟨c1, c2, c3, c4, c5, c6, c7, c8, c9, c10, c11⟩ :=
    processSegs_ok env jid g.segments.length g.segments 0 [] (preLoop j s4)
      rL sL hok' hL
  subst c1
  have hAG : afterGemini env jid j g s4 =
      tailAssemble j g ([] ++ expectedAbsWords env g.segments 0) sL := by
    simp [afterGemini, hL]
  rw [hAG]
  refine ⟨rfl, ?_, ?_, ?_, ?_, ?_, ?_, ?_⟩
  · simp only [tailAssemble, commit, setJob]
    rw [c2, c4]
    simp [preLoop, commit, setJob, List.append_assoc]
  · simp only [tailAssemble, commit, setJob]
    have := c5
    simp only [preLoop, commit, setJob] at this
    simp [this, List.append_assoc]
  · simp only [tailAssemble, commit, setJob]
    have := c6
    simp only [preLoop, commit, setJob] at this
    simp [this, List.append_assoc]
  · simp only [tailAssemble, commit, setJob]
    have h7 := c7
    simp only [preLoop, commit, setJob, List.append_nil] at h7
    rw [← List.append_assoc, h7]
    simp [List.append_assoc]
  · simp only [tailAssemble, commit, setJob]
    have := c9
    simp only [preLoop, commit, setJob] at this
    simp [this]
  · simp only [tailAssemble, commit, setJob]
    have := c11
    simp only [preLoop, commit, setJob] at this
    omega
  · simp only [tailAssemble, commit, setJob]
    have := c10
    simp only [preLoop, commit, setJob] at this
    simp [this]

/-- `afterGemini` outcome when the first loop failure is at index `m`. -/
lemma afterGemini_fail (env : Env) (jid : String) (j : JobRec) (g : GemOut)
    (s4 : Session) (m : ℕ) (e : String) (hm : m < g.segments.length)
    (hall : ∀ k, k < m → iterRes env k = .ok ())
    (hfail : iterRes env m = .error e) :
    (afterGemini env jid j g s4).1 = some e ∧
    (afterGemini env jid j g s4).2.trace = s4.trace ++
      [⟨.ASR_RUNNING, 3/5, s4.job.error⟩] ++
      asrSnaps .ASR_RUNNING s4.job.error g.segments.length 0 (m + 1) ++
      [⟨.FAILED, progAt g.segments.length m, some e⟩] ∧
    (afterGemini env jid j g s4).2.committedLessons =
      s4.committedLessons ++ s4.pendingLessons ++
        expectedLessons env jid (g.segments.take m) 0 ∧
    (afterGemini env jid j g s4).2.committedVoca =
      s4.committedVoca ++ s4.pendingVoca ++ expectedVoca (g.segments.take m) 0 ∧
    (afterGemini env jid j g s4).2.committedWords =
      s4.committedWords ++ s4.pendingWords ∧
    (afterGemini env jid j g s4).2.geminiCalls = s4.geminiCalls ∧
    (afterGemini env jid j g s4).2.sttCalls ≤
      s4.sttCalls + g.segments.length ∧
    (afterGemini env jid j g s4).2.acquireCalls = s4.acquireCalls := by
  have hfst : (processSegs env jid g.segments.length g.segments 0 []
      (preLoop j s4)).1 = .error e := by
    refine processSegs_fails_fst env jid g.segments.length g.segments 0 m []
      (preLoop j s4) e hm ?_ ?_
    · intro k hk
      simpa using hall k hk
    · simpa using hfail
  rcases hL : processSegs env jid g.segments.length g.segments 0 []
      (preLoop j s4) with ⟨rL, sL⟩
  rw [hL] at hfst
  simp only at hfst
  subst hfst
  obtain ⟨m2, hm2, hall2, hfail2, d1, d2, d3, d4, d5, d6, d7, d8, d9, d10,
    d11, d12, d13⟩ :=
    processSegs_fail env jid g.segments.length g.segments 0 [] (preLoop j s4)
      e sL hL
  have hmm : m2 = m := by
    by_contra hne
    rcases Nat.lt_or_ge m2 m with h | h
    · have hok2 := hall m2 h
      rw [Nat.zero_add] at hfail2
      rw [hok2] at hfail2
      cases hfail2
    · have hlt : m < m2 := by omega
      have hok2 := hall2 m (by omega)
      rw [Nat.zero_add] at hok2
      rw [hfail] at hok2
      cases hok2
  subst hmm
  have hAG : afterGemini env jid j g s4 = (some e, failCommit sL e) := by
    simp [afterGemini, hL]
  rw [hAG]
  refine ⟨rfl, ?_, ?_, ?_, ?_, ?_, ?_, ?_⟩
  · simp only [failCommit, commit, setJob]
    rw [d1, d2]
    simp [preLoop, commit, setJob, List.append_assoc]
  · simp only [failCommit, commit, setJob]
    rw [d3, d4]
    simp only [preLoop, commit, setJob]
    simp [List.append_assoc]
  · simp only [failCommit, commit, setJob]
    rw [d5, d6]
    simp only [preLoop, commit, setJob]
    simp [List.append_assoc]
  · simp only [failCommit, commit, setJob]
    rw [d7, d8]
    simp only [preLoop, commit, setJob]
    simp
  · simp only [failCommit, commit, setJob]
    rw [d11]
    simp [preLoop, commit, setJob]
  · simp only [failCommit, commit, setJob]
    have := d13
    simp only [preLoop, commit, setJob] at this
    omega
  · simp only [failCommit, commit, setJob]
    rw [d12]
    simp [preLoop, commit, setJob]

/-- Run outcome when acquisition and Gemini succeed and the first loop
failure is at segment `m`. -/
lemma core_loopfail (env : Env) (jid : String) (j : JobRec) (g : GemOut)
    (m : ℕ) (e : String) (hj : env.job = some j)
    (hacq : acquireRes env j (msOf env j) = .ok ())
    (hG : env.gemini = .ok g)
    (hm : m < g.segments.length)
    (hall : ∀ k, k < m → iterRes env k = .ok ())
    (hfail : iterRes env m = .error e) :
    (processJobCore env jid).1 = some e ∧
    (processJobCore env jid).2.trace =
      [⟨.DOWNLOADING, 1/10, j.error⟩, ⟨JobStatus.EXTRACTING_AUDIO, 1/4, j.error⟩,
        ⟨.GEMINI_RUNNING, 2/5, j.error⟩, ⟨.ASR_RUNNING, 3/5, j.error⟩] ++
      asrSnaps .ASR_RUNNING j.error g.segments.length 0 (m + 1) ++
      [⟨.FAILED, progAt g.segments.length m, some e⟩] ∧
    (processJobCore env jid).2.committedLessons =
      expectedLessons env jid (g.segments.take m) 0 ∧
    (processJobCore env jid).2.committedVoca =
      expectedVoca (g.segments.take m) 0 ∧
    (processJobCore env jid).2.committedWords = [] ∧
    (processJobCore env jid).2.geminiCalls = 1 ∧
    (processJobCore env jid).2.sttCalls ≤ g.segments.length ∧
    (processJobCore env jid).2.acquireCalls = 1 := by
  obtain ⟨a1, a2, a3, a4, a5, a6, a7, a8, a9, a10, a11, a12, a13, a14, a15⟩ :=
    runAcquire_spec env jid j (msOf env j) (startSession j)
  have h1 : (runAcquire env jid j (msOf env j) (startSession j)).1 = .ok () :=
    a1.trans hacq
  rcases hA : runAcquire env jid j (msOf env j) (startSession j) with ⟨rA, sA⟩
  rw [hA] at h1 a2 a3 a4 a5 a6 a7 a8 a9 a10 a11 a13 a14 a15
  simp only at h1 a2 a3 a4 a5 a6 a7 a8 a9 a10 a11 a13 a14 a15
  subst h1
  have hcore : processJobCore env jid = afterAcquire env jid j sA := by
    simp [processJobCore, hj, hA]
  have hAA : afterAcquire env jid j sA =
      afterGemini env jid j g (gemOkSession sA) := by
    simp [afterAcquire, hG]
  obtain ⟨f1, f2, f3, f4, f5, f6, f7, f8⟩ :=
    afterGemini_fail env jid j g (gemOkSession sA) m e hm hall hfail
  rw [hcore, hAA]
  refine ⟨f1, ?_, ?_, ?_, ?_, ?_, ?_, ?_⟩
  · rw [f2]
    simp [gemOkSession, commit, setJob, a2, a3, startSession, initSession]
  · rw [f3]
    simp [gemOkSession, commit, setJob, a4, a5, startSession, initSession]
  · rw [f4]
    simp [gemOkSession, commit, setJob, a6, a7, startSession, initSession]
  · rw [f5]
    simp [gemOkSession, commit, setJob, a8, a9, startSession, initSession]
  · rw [f6]
    simp [gemOkSession, commit, setJob, a13, startSession, initSession]
  · have h := f7
    have h2 : (gemOkSession sA).sttCalls = 0 := by
      simp [gemOkSession, commit, setJob, a14, startSession, initSession]
    rw [h2] at h
    simpa using h
  · rw [f8]
    simp [gemOkSession, commit, setJob, a15, startSession, initSession]

/-- Run outcome when every stage succeeds. -/
lemma core_ok (env : Env) (jid : String) (j : JobRec) (g : GemOut)
    (hj : env.job = some j)
    (hacq : acquireRes env j (msOf env j) = .ok ())
    (hG : env.gemini = .ok g)
    (hok : ∀ k, k < g.segments.length → iterRes env k = .ok ()) :
    (processJobCore env jid).1 = none ∧
    (processJobCore env jid).2.trace =
      [⟨.DOWNLOADING, 1/10, j.error⟩, ⟨JobStatus.EXTRACTING_AUDIO, 1/4, j.error⟩,
        ⟨.GEMINI_RUNNING, 2/5, j.error⟩, ⟨.ASR_RUNNING, 3/5, j.error⟩] ++
      asrSnaps .ASR_RUNNING j.error g.segments.length 0 g.segments.length ++
      [⟨.COMPLETED, 1, j.error⟩] ∧
    (processJobCore env jid).2.committedLessons =
      expectedLessons env jid g.segments 0 ∧
    (processJobCore env jid).2.committedVoca = expectedVoca g.segments 0 ∧
    (processJobCore env jid).2.committedWords =
      (expectedAbsWords env g.segments 0).enum.map
        (fun p => ⟨p.1, p.2.startSeconds, p.2.endSeconds, p.2.word⟩) ∧
    (processJobCore env jid).2.geminiCalls = 1 ∧
    (processJobCore env jid).2.sttCalls ≤ g.segments.length ∧
    (processJobCore env jid).2.acquireCalls = 1 := by
  obtain ⟨a1, a2, a3, a4, a5, a6, a7, a8, a9, a10, a11, a12, a13, a14, a15⟩ :=
    runAcquire_spec env jid j (msOf env j) (startSession j)
  have h1 : (runAcquire env jid j (msOf env j) (startSession j)).1 = .ok () :=
    a1.trans hacq
  rcases hA : runAcquire env jid j (msOf env j) (startSession j) with ⟨rA, sA⟩
  rw [hA] at h1 a2 a3 a4 a5 a6 a7 a8 a9 a10 a11 a13 a14 a15
  simp only at h1 a2 a3 a4 a5 a6 a7 a8 a9 a10 a11 a13 a14 a15
  subst h1
  have hcore : processJobCore env jid = afterAcquire env jid j sA := by
    simp [processJobCore, hj, hA]
  have hAA : afterAcquire env jid j sA =
      afterGemini env jid j g (gemOkSession sA) := by
    simp [afterAcquire, hG]
  obtain ⟨f1, f2, f3, f4, f5, f6, f7, f8⟩ :=
    afterGemini_ok env jid j g (gemOkSession sA) hok
  rw [hcore, hAA]
  refine ⟨f1, ?_, ?_, ?_, ?_, ?_, ?_, ?_⟩
  · rw [f2]
    simp [gemOkSession, commit, setJob, a2, a3, startSession, initSession]
  · rw [f3]
    simp [gemOkSession, commit, setJob, a4, a5, startSession, initSession]
  · rw [f4]
    simp [gemOkSession, commit, setJob, a6, a7, startSession, initSession]
  · rw [f5]
    simp [gemOkSession, commit, setJob, a8, a9, startSession, initSession]
  · rw [f6]
    simp [gemOkSession, commit, setJob, a13, startSession, initSession]
  · have h := f7
    have h2 : (gemOkSession sA).sttCalls = 0 := by
      simp [gemOkSession, commit, setJob, a14, startSession, initSession]
    rw [h2] at h
    simpa using h
  · rw [f8]
    simp [gemOkSession, commit, setJob, a15, startSession, initSession]

/-! ## Facts about progress values, snapshots and expected rows -/

lemma process_job_fst (env : Env) (fail : String → Bool) (jid : String) :
    (process_job env fail jid).1 = (processJobCore env jid).1 := rfl

lemma process_job_trace (env : Env) (fail : String → Bool) (jid : String) :
    (process_job env fail jid).2.trace = (processJobCore env jid).2.trace := rfl

lemma process_job_lessons (env : Env) (fail : String → Bool) (jid : String) :
    (process_job env fail jid).2.committedLessons =
      (processJobCore env jid).2.committedLessons := rfl

lemma process_job_voca (env : Env) (fail : String → Bool) (jid : String) :
    (process_job env fail jid).2.committedVoca =
      (processJobCore env jid).2.committedVoca := rfl

lemma process_job_words (env : Env) (fail : String → Bool) (jid : String) :
    (process_job env fail jid).2.committedWords =
      (processJobCore env jid).2.committedWords := rfl

lemma process_job_counters (env : Env) (fail : String → Bool) (jid : String) :
    (process_job env fail jid).2.acquireCalls =
      (processJobCore env jid).2.acquireCalls ∧
    (process_job env fail jid).2.geminiCalls =
      (processJobCore env jid).2.geminiCalls ∧
    (process_job env fail jid).2.sttCalls =
      (processJobCore env jid).2.sttCalls := ⟨rfl, rfl, rfl⟩

lemma progAt_nonneg (total k : ℕ) : 0 ≤ progAt total k := by
  by_cases h : 0 < total
  · simp only [progAt, h, if_true]
    positivity
  · simp only [progAt, h, if_false]
    norm_num

lemma progAt_lt_one {total k : ℕ} (h : k ≤ total) : progAt total k < 1 := by
  by_cases h0 : 0 < total
  · simp only [progAt, h0, if_true]
    have hx : (k : ℚ) / (total : ℚ) ≤ 1 := by
      rw [div_le_one (by exact_mod_cast h0)]
      exact_mod_cast h
    nlinarith
  · simp only [progAt, h0, if_false]
    norm_num

lemma progAt_mono (total : ℕ) {k1 k2 : ℕ} (h : k1 ≤ k2) :
    progAt total k1 ≤ progAt total k2 := by
  by_cases h0 : 0 < total
  · simp only [progAt, h0, if_true]
    have hx : (k1 : ℚ) / (total : ℚ) ≤ (k2 : ℚ) / (total : ℚ) := by
      gcongr
    nlinarith
  · simp [progAt, h0]

lemma progAt_ge (total k : ℕ) : 3/5 ≤ progAt total k := by
  by_cases h0 : 0 < total
  · simp only [progAt, h0, if_true]
    have hx : 0 ≤ (k : ℚ) / (total : ℚ) := by positivity
    nlinarith
  · simp only [progAt, h0, if_false]
    norm_num

lemma asrSnaps_mem {st : JobStatus} {err : Option String} {total : ℕ} :
    ∀ {i m : ℕ} {x : Snapshot}, x ∈ asrSnaps st err total i m →
      ∃ k, i ≤ k ∧ k < i + m ∧ x = ⟨st, progAt total k, err⟩ := by
  intro i m
  induction m generalizing i with
  | zero => intro x hx; simp [asrSnaps] at hx
  | succ m ih =>
      intro x hx
      rcases List.mem_cons.mp hx with h | h
      · exact ⟨i, le_refl i, by omega, h⟩
      · obtain ⟨k, hk1, hk2, hk3⟩ := ih h
        exact ⟨k, by omega, by omega, hk3⟩

lemma asrSnaps_map_status (st : JobStatus) (err : Option String) (total : ℕ) :
    ∀ i m, (asrSnaps st err total i m).map Snapshot.status =
      List.replicate m st := by
  intro i m
  induction m generalizing i with
  | zero => rfl
  | succ m ih => simp [asrSnaps, ih, List.replicate_succ]

/-- Chain' of an arbitrary relation over the loop snapshots followed by one
closing snapshot. -/
lemma chain_snaps_concat (R : Snapshot → Snapshot → Prop) (st : JobStatus)
    (err : Option String) (total : ℕ) (c : Snapshot)
    (hstep : ∀ k, R ⟨st, progAt total k, err⟩ ⟨st, progAt total (k + 1), err⟩) :
    ∀ i m, (∀ k, k + 1 = i + m → R ⟨st, progAt total k, err⟩ c) →
      List.Chain' R (asrSnaps st err total i m ++ [c]) := by
  intro i m
  induction m generalizing i with
  | zero => intro _; simp [asrSnaps]
  | succ m ih =>
      intro hlast
      simp only [asrSnaps, List.cons_append]
      refine List.chain'_cons'.mpr ⟨?_, ?_⟩
      · intro y hy
        cases m with
        | zero =>
            simp [asrSnaps] at hy
            subst hy
            exact hlast i (by omega)
        | succ m' =>
            simp [asrSnaps] at hy
            rw [← hy]
            exact hstep i
      · exact ih (i + 1) (fun k hk => hlast k (by omega))

lemma chain_replicate_concat (R : JobStatus → JobStatus → Prop)
    (st c : JobStatus) (hself : R st st) (hc : R st c) :
    ∀ m, List.Chain R st (List.replicate m st ++ [c]) := by
  intro m
  induction m with
  | zero => exact List.Chain.cons hc List.Chain.nil
  | succ m ih =>
      simp only [List.replicate_succ, List.cons_append]
      exact List.Chain.cons hself ih

lemma expectedLessons_length (env : Env) (jid : String) :
    ∀ (segs : List GSeg) (i : ℕ), (expectedLessons env jid segs i).length =
      segs.length := by
  intro segs
  induction segs with
  | nil => intro i; rfl
  | cons g rest ih => intro i; simp [expectedLessons, ih]

lemma expectedLessons_map_idx (env : Env) (jid : String) :
    ∀ (segs : List GSeg) (i : ℕ),
      (expectedLessons env jid segs i).map (fun l => l.idx) =
        List.range' i segs.length := by
  intro segs
  induction segs with
  | nil => intro i; rfl
  | cons g rest ih =>
      intro i
      simp [expectedLessons, lessonRowOf, ih, List.range'_succ]

lemma vocaRowsOf_map_idx (i : ℕ) (g : GSeg) :
    (vocaRowsOf i g).map (fun v => v.idx) = List.range g.items.length := by
  simp only [vocaRowsOf, List.map_map]
  have : ((fun v : VocaRow => v.idx) ∘ fun p : ℕ × VocabItem =>
      (⟨i, p.1, p.2.term.getD "", p.2.meaningKo.getD "",
        p.2.exampleEn.getD ""⟩ : VocaRow)) = Prod.fst := rfl
  rw [this, List.enum_map_fst]

lemma snaps_concat_head (st : JobStatus) (err : Option String) (total i : ℕ)
    (c : Snapshot) (m : ℕ) :
    (asrSnaps st err total i m ++ [c]).head? =
      some (if m = 0 then c else ⟨st, progAt total i, err⟩) := by
  cases m <;> simp [asrSnaps]

lemma nonterminal_statuses :
    (JobStatus.DOWNLOADING ≠ .COMPLETED ∧ JobStatus.DOWNLOADING ≠ .FAILED) ∧
    (JobStatus.EXTRACTING_AUDIO ≠ .COMPLETED ∧
      JobStatus.EXTRACTING_AUDIO ≠ .FAILED) ∧
    (JobStatus.GEMINI_RUNNING ≠ .COMPLETED ∧
      JobStatus.GEMINI_RUNNING ≠ .FAILED) ∧
    (JobStatus.ASR_RUNNING ≠ .COMPLETED ∧ JobStatus.ASR_RUNNING ≠ .FAILED) := by
  decide

/-! ## Claim C3 -/

/-- C3: over the committed job states of any `process_job` run, progress is
monotonically non-decreasing and stays in `[0, 1]`, progress equals `1.0`
exactly in the COMPLETED state, and no committed state ever follows a
terminal (COMPLETED or FAILED) one. -/
theorem claim_C3_progress_invariants (env : Env) (fail : String → Bool)
    (jid : String) :
    List.Chain' (fun a b : Snapshot => a.progress ≤ b.progress)
      (process_job env fail jid).2.trace ∧
    (∀ x ∈ (process_job env fail jid).2.trace,
      0 ≤ x.progress ∧ x.progress ≤ 1) ∧
    (∀ x ∈ (process_job env fail jid).2.trace,
      (x.progress = 1 ↔ x.status = .COMPLETED)) ∧
    List.Chain' (fun a _ : Snapshot =>
      a.status ≠ .COMPLETED ∧ a.status ≠ .FAILED)
      (process_job env fail jid).2.trace := by
  rw [process_job_trace]
  cases hj : env.job with
  | none =>
      have h : processJobCore env jid =
          (some ("Job not found: " ++ jid), initSession) := by
        simp [processJobCore, hj]
      rw [h]
      simp [initSession]
  | some j =>
      rcases env_split env j with ⟨e, hacq⟩ |
        ⟨hacq, ⟨e, hG⟩ | ⟨g, hG, ⟨m, e, hm, hall, hfail⟩ | hok⟩⟩
      · obtain ⟨c1, c2, c3, c4, c5, c6, c7, c8⟩ :=
          core_acqfail env jid j e hj hacq
        rw [c2]
        refine ⟨?_, ?_, ?_, ?_⟩
        · simp
        · intro x hx
          rcases List.mem_cons.mp hx with rfl | hx
          · constructor <;> norm_num
          · rcases List.mem_cons.mp hx with rfl | hx
            · constructor <;> norm_num
            · simp at hx
        · intro x hx
          rcases List.mem_cons.mp hx with rfl | hx
          · constructor <;> intro h2 <;> dsimp only at h2 <;>
              first | exact absurd h2 (by decide) | norm_num at h2
          · rcases List.mem_cons.mp hx with rfl | hx
            · constructor <;> intro h2 <;> dsimp only at h2 <;>
                first | exact absurd h2 (by decide) | norm_num at h2
            · simp at hx
        · simp
      · obtain ⟨c1, c2, c3, c4, c5, c6, c7, c8⟩ :=
          core_gemfail env jid j e hj hacq hG
        rw [c2]
        refine ⟨?_, ?_, ?_, ?_⟩
        · refine List.chain'_cons'.mpr ⟨?_, ?_⟩
          · intro y hy; simp at hy; subst hy; norm_num
          · refine List.chain'_cons'.mpr ⟨?_, ?_⟩
            · intro y hy; simp at hy; subst hy; norm_num
            · refine List.chain'_cons'.mpr ⟨?_, ?_⟩
              · intro y hy; simp at hy; subst hy; norm_num
              · simp
        · intro x hx
          simp only [List.mem_cons, List.not_mem_nil, or_false] at hx
          rcases hx with rfl | rfl | rfl | rfl <;> constructor <;> norm_num
        · intro x hx
          simp only [List.mem_cons, List.not_mem_nil, or_false] at hx
          rcases hx with rfl | rfl | rfl | rfl <;>
            constructor <;> intro h2 <;> dsimp only at h2 <;>
            first | exact absurd h2 (by decide) | norm_num at h2
        · refine List.chain'_cons'.mpr ⟨?_, ?_⟩
          · intro y _; exact nonterminal_statuses.1
          · refine List.chain'_cons'.mpr ⟨?_, ?_⟩
            · intro y _; exact nonterminal_statuses.2.1
            · refine List.chain'_cons'.mpr ⟨?_, ?_⟩
              · intro y _; exact nonterminal_statuses.2.2.1
              · simp
      · obtain ⟨c1, c2, c3, c4, c5, c6, c7, c8⟩ :=
          core_loopfail env jid j g m e hj hacq hG hm hall hfail
        rw [c2]
        have hsh := snaps_concat_head .ASR_RUNNING j.error g.segments.length 0
          ⟨.FAILED, progAt g.segments.length m, some e⟩ (m + 1)
        refine ⟨?_, ?_, ?_, ?_⟩
        · simp only [List.append_assoc, List.cons_append, List.nil_append]
          refine List.chain'_cons'.mpr ⟨?_, ?_⟩
          · intro y hy; simp at hy; subst hy; norm_num
          · refine List.chain'_cons'.mpr ⟨?_, ?_⟩
            · intro y hy; simp at hy; subst hy; norm_num
            · refine List.chain'_cons'.mpr ⟨?_, ?_⟩
              · intro y hy; simp at hy; subst hy; norm_num
              · refine List.chain'_cons'.mpr ⟨?_, ?_⟩
                · intro y hy
                  rw [hsh] at hy
                  simp only [Option.mem_def, Option.some.injEq] at hy
                  subst hy
                  simp only [if_neg (Nat.succ_ne_zero m)]
                  exact progAt_ge _ _
                · refine chain_snaps_concat _ _ _ _ _ ?_ 0 (m + 1) ?_
                  · intro k; exact progAt_mono _ (by omega)
                  · intro k hk
                    have : k = m := by omega
                    subst this
                    exact le_refl _
        · intro x hx
          simp only [List.append_assoc, List.cons_append, List.nil_append,
            List.mem_cons, List.mem_append, List.mem_singleton,
            List.not_mem_nil, or_false] at hx
          rcases hx with rfl | rfl | rfl | rfl | hx | rfl
          · constructor <;> norm_num
          · constructor <;> norm_num
          · constructor <;> norm_num
          · constructor <;> norm_num
          · obtain ⟨k, _, hk, rfl⟩ := asrSnaps_mem hx
            exact ⟨progAt_nonneg _ _, (progAt_lt_one (by omega)).le⟩
          · exact ⟨progAt_nonneg _ _, (progAt_lt_one (by omega)).le⟩
        · intro x hx
          simp only [List.append_assoc, List.cons_append, List.nil_append,
            List.mem_cons, List.mem_append, List.mem_singleton,
            List.not_mem_nil, or_false] at hx
          rcases hx with rfl | rfl | rfl | rfl | hx | rfl
          · constructor <;> intro h2 <;> dsimp only at h2 <;>
              first | exact absurd h2 (by decide) | norm_num at h2
          · constructor <;> intro h2 <;> dsimp only at h2 <;>
              first | exact absurd h2 (by decide) | norm_num at h2
          · constructor <;> intro h2 <;> dsimp only at h2 <;>
              first | exact absurd h2 (by decide) | norm_num at h2
          · constructor <;> intro h2 <;> dsimp only at h2 <;>
              first | exact absurd h2 (by decide) | norm_num at h2
          · obtain ⟨k, _, hk, rfl⟩ := asrSnaps_mem hx
            constructor <;> intro h2 <;> dsimp only at h2
            · exact absurd h2 (progAt_lt_one (by omega)).ne
            · exact absurd h2 (by decide)
          · constructor <;> intro h2 <;> dsimp only at h2
            · exact absurd h2 (progAt_lt_one (by omega)).ne
            · exact absurd h2 (by decide)
        · simp only [List.append_assoc, List.cons_append, List.nil_append]
          refine List.chain'_cons'.mpr ⟨fun y _ => nonterminal_statuses.1, ?_⟩
          refine List.chain'_cons'.mpr ⟨fun y _ => nonterminal_statuses.2.1, ?_⟩
          refine List.chain'_cons'.mpr
            ⟨fun y _ => nonterminal_statuses.2.2.1, ?_⟩
          refine List.chain'_cons'.mpr
            ⟨fun y _ => nonterminal_statuses.2.2.2, ?_⟩
          refine chain_snaps_concat _ _ _ _ _ ?_ 0 (m + 1) ?_
          · intro k; exact nonterminal_statuses.2.2.2
          · intro k _; exact nonterminal_statuses.2.2.2
      · obtain ⟨c1, c2, c3, c4, c5, c6, c7, c8⟩ :=
          core_ok env jid j g hj hacq hG hok
        rw [c2]
        have hsh := snaps_concat_head .ASR_RUNNING j.error g.segments.length 0
          ⟨.COMPLETED, 1, j.error⟩ g.segments.length
        refine ⟨?_, ?_, ?_, ?_⟩
        · simp only [List.append_assoc, List.cons_append, List.nil_append]
          refine List.chain'_cons'.mpr ⟨?_, ?_⟩
          · intro y hy; simp at hy; subst hy; norm_num
          · refine List.chain'_cons'.mpr ⟨?_, ?_⟩
            · intro y hy; simp at hy; subst hy; norm_num
            · refine List.chain'_cons'.mpr ⟨?_, ?_⟩
              · intro y hy; simp at hy; subst hy; norm_num
              · refine List.chain'_cons'.mpr ⟨?_, ?_⟩
                · intro y hy
                  rw [hsh] at hy
                  simp only [Option.mem_def, Option.some.injEq] at hy
                  subst hy
                  by_cases hn : g.segments.length = 0
                  · simp only [hn, if_pos rfl]
                    norm_num
                  · simp only [if_neg hn]
                    exact progAt_ge _ _
                · refine chain_snaps_concat _ _ _ _ _ ?_ 0 g.segments.length ?_
                  · intro k; exact progAt_mono _ (by omega)
                  · intro k hk
                    exact (progAt_lt_one (by omega)).le
        · intro x hx
          simp only [List.append_assoc, List.cons_append, List.nil_append,
            List.mem_cons, List.mem_append, List.mem_singleton,
            List.not_mem_nil, or_false] at hx
          rcases hx with rfl | rfl | rfl | rfl | hx | rfl
          · constructor <;> norm_num
          · constructor <;> norm_num
          · constructor <;> norm_num
          · constructor <;> norm_num
          · obtain ⟨k, _, hk, rfl⟩ := asrSnaps_mem hx
            exact ⟨progAt_nonneg _ _, (progAt_lt_one (by omega)).le⟩
          · constructor <;> norm_num
        · intro x hx
          simp only [List.append_assoc, List.cons_append, List.nil_append,
            List.mem_cons, List.mem_append, List.mem_singleton,
            List.not_mem_nil, or_false] at hx
          rcases hx with rfl | rfl | rfl | rfl | hx | rfl
          · constructor <;> intro h2 <;> dsimp only at h2 <;>
              first | exact absurd h2 (by decide) | norm_num at h2
          · constructor <;> intro h2 <;> dsimp only at h2 <;>
              first | exact absurd h2 (by decide) | norm_num at h2
          · constructor <;> intro h2 <;> dsimp only at h2 <;>
              first | exact absurd h2 (by decide) | norm_num at h2
          · constructor <;> intro h2 <;> dsimp only at h2 <;>
              first | exact absurd h2 (by decide) | norm_num at h2
          · obtain ⟨k, _, hk, rfl⟩ := asrSnaps_mem hx
            constructor <;> intro h2 <;> dsimp only at h2
            · exact absurd h2 (progAt_lt_one (by omega)).ne
            · exact absurd h2 (by decide)
          · exact ⟨fun _ => rfl, fun _ => rfl⟩
        · simp only [List.append_assoc, List.cons_append, List.nil_append]
          refine List.chain'_cons'.mpr ⟨fun y _ => nonterminal_statuses.1, ?_⟩
          refine List.chain'_cons'.mpr ⟨fun y _ => nonterminal_statuses.2.1, ?_⟩
          refine List.chain'_cons'.mpr
            ⟨fun y _ => nonterminal_statuses.2.2.1, ?_⟩
          refine List.chain'_cons'.mpr
            ⟨fun y _ => nonterminal_statuses.2.2.2, ?_⟩
          refine chain_snaps_concat _ _ _ _ _ ?_ 0 g.segments.length ?_
          · intro k; exact nonterminal_statuses.2.2.2
          · intro k _; exact nonterminal_statuses.2.2.2

/-! ## Claim C4 -/

/-- The status chain the code actually follows: analysis (GEMINI_RUNNING)
runs on the full audio *before* per-segment STT (ASR_RUNNING). -/
def statusStep (a b : JobStatus) : Bool :=
  match a, b with
  | .QUEUED, .DOWNLOADING => true
  | .DOWNLOADING, JobStatus.EXTRACTING_AUDIO => true
  | JobStatus.EXTRACTING_AUDIO, .GEMINI_RUNNING => true
  | .GEMINI_RUNNING, .ASR_RUNNING => true
  | .ASR_RUNNING, .COMPLETED => true
  | _, _ => false

/-- One admissible committed transition: the predecessor is non-terminal and
the successor repeats it, is its chain successor, or is FAILED. -/
def stepOk (a b : JobStatus) : Prop :=
  (a ≠ .COMPLETED ∧ a ≠ .FAILED) ∧
  (b = a ∨ statusStep a b = true ∨ b = .FAILED)

instance : DecidableRel stepOk := fun a b =>
  inferInstanceAs (Decidable ((a ≠ .COMPLETED ∧ a ≠ .FAILED) ∧
    (b = a ∨ statusStep a b = true ∨ b = .FAILED)))

/-- The status chain asserted by the claim, reading its "ANALYZING" as the
enum's analysis state GEMINI_RUNNING: QUEUED → DOWNLOADING →
EXTRACTING_AUDIO → ASR_RUNNING → GEMINI_RUNNING → COMPLETED. -/
def claimStep (a b : JobStatus) : Bool :=
  match a, b with
  | .QUEUED, .DOWNLOADING => true
  | .DOWNLOADING, JobStatus.EXTRACTING_AUDIO => true
  | JobStatus.EXTRACTING_AUDIO, .ASR_RUNNING => true
  | .ASR_RUNNING, .GEMINI_RUNNING => true
  | .GEMINI_RUNNING, .COMPLETED => true
  | _, _ => false

/-- C4 (amended): the committed statuses of every run follow the fixed order
QUEUED → DOWNLOADING → EXTRACTING_AUDIO → GEMINI_RUNNING → ASR_RUNNING →
COMPLETED (with repetitions), FAILED is reachable from any non-terminal
state, and no committed state follows a terminal one. -/
theorem claim_C4_status_machine (env : Env) (fail : String → Bool)
    (jid : String) :
    List.Chain stepOk .QUEUED
      ((process_job env fail jid).2.trace.map Snapshot.status) := by
  rw [process_job_trace]
  cases hj : env.job with
  | none =>
      have h : processJobCore env jid =
          (some ("Job not found: " ++ jid), initSession) := by
        simp [processJobCore, hj]
      rw [h]
      exact List.Chain.nil
  | some j =>
      rcases env_split env j with ⟨e, hacq⟩ |
        ⟨hacq, ⟨e, hG⟩ | ⟨g, hG, ⟨m, e, hm, hall, hfail⟩ | hok⟩⟩
      · obtain ⟨c1, c2, c3, c4, c5, c6, c7, c8⟩ :=
          core_acqfail env jid j e hj hacq
        rw [c2]
        show List.Chain stepOk .QUEUED [.DOWNLOADING, .FAILED]
        exact List.Chain.cons (by decide)
          (List.Chain.cons (by decide) List.Chain.nil)
      · obtain ⟨c1, c2, c3, c4, c5, c6, c7, c8⟩ :=
          core_gemfail env jid j e hj hacq hG
        rw [c2]
        show List.Chain stepOk .QUEUED
          [.DOWNLOADING, JobStatus.EXTRACTING_AUDIO, .GEMINI_RUNNING, .FAILED]
        exact List.Chain.cons (by decide) (List.Chain.cons (by decide)
          (List.Chain.cons (by decide) (List.Chain.cons (by decide)
            List.Chain.nil)))
      · obtain ⟨c1, c2, c3, c4, c5, c6, c7, c8⟩ :=
          core_loopfail env jid j g m e hj hacq hG hm hall hfail
        rw [c2]
        simp only [List.map_append, List.map_cons, List.map_nil,
          asrSnaps_map_status, List.append_assoc, List.cons_append,
          List.nil_append]
        refine List.Chain.cons (by decide) ?_
        refine List.Chain.cons (by decide) ?_
        refine List.Chain.cons (by decide) ?_
        refine List.Chain.cons (by decide) ?_
        exact chain_replicate_concat stepOk .ASR_RUNNING .FAILED
          (by decide) (by decide) (m + 1)
      · obtain ⟨c1, c2, c3, c4, c5, c6, c7, c8⟩ :=
          core_ok env jid j g hj hacq hG hok
        rw [c2]
        simp only [List.map_append, List.map_cons, List.map_nil,
          asrSnaps_map_status, List.append_assoc, List.cons_append,
          List.nil_append]
        refine List.Chain.cons (by decide) ?_
        refine List.Chain.cons (by decide) ?_
        refine List.Chain.cons (by decide) ?_
        refine List.Chain.cons (by decide) ?_
        exact chain_replicate_concat stepOk .ASR_RUNNING .COMPLETED
          (by decide) (by decide) g.segments.length

/-! ## Concrete runs for counterexamples and witnesses -/

/-- A freshly queued job row with no media source and no legacy source type
(acquisition is then a no-op, tasks.py line 103). -/
def jb0 : JobRec := ⟨.QUEUED, 0, none, none, none, none, none, none⟩

/-- A deletion oracle under which every delete succeeds. -/
def noFail : String → Bool := fun _ => false

/-- A vocabulary item for the concrete analysis segments. -/
def vitem0 : VocabItem := ⟨some "hi", some "인사", some "Hi there!"⟩

/-- First concrete analysis segment (one vocabulary item). -/
def segA : GSeg := ⟨2, 5, some "Hi there.", none, none, [vitem0]⟩

/-- Second concrete analysis segment (no vocabulary items). -/
def segB : GSeg := ⟨7, 9, none, none, none, []⟩

/-- A fully successful environment: two analysis segments, every external
call succeeds. -/
def baseEnv : Env :=
  { job := some jb0
    mediaSource := none
    ytResult := .ok ()
    s3Download := .ok ()
    extractFile := .ok ()
    gemini := .ok ⟨"analysis", [segA, segB]⟩
    cutFlac := fun _ => .ok ()
    stt := fun _ => .ok ⟨[⟨"hello", 0, 1⟩], "hello"⟩
    cutMp3 := fun _ => .ok ()
    upload := fun _ => .ok () }

/-- `baseEnv` with an analysis returning no segments. -/
def envEmptySegs : Env := { baseEnv with gemini := .ok ⟨"analysis", []⟩ }

/-- `baseEnv` with STT failing on the second segment. -/
def envSttFail : Env :=
  { baseEnv with
    stt := fun i => if i = 0 then .ok ⟨[], "hello"⟩ else .error "boom" }

/-- `baseEnv` with the Gemini call failing. -/
def envGemFail : Env := { baseEnv with gemini := .error "gem boom" }

/-- One admissible committed transition of the machine the claim asserts:
the predecessor is non-terminal and the successor repeats it, is its
`claimStep` successor, or is FAILED. -/
def claimStepOk (a b : JobStatus) : Prop :=
  (a ≠ .COMPLETED ∧ a ≠ .FAILED) ∧
  (b = a ∨ claimStep a b = true ∨ b = .FAILED)

instance : DecidableRel claimStepOk := fun a b =>
  inferInstanceAs (Decidable ((a ≠ .COMPLETED ∧ a ≠ .FAILED) ∧
    (b = a ∨ claimStep a b = true ∨ b = .FAILED)))

/-- C4 counterexample: a fully successful run commits GEMINI_RUNNING (the
analysis state) *before* ASR_RUNNING, so its committed status sequence does
not follow the claimed order QUEUED → DOWNLOADING → EXTRACTING_AUDIO →
ASR_RUNNING → ANALYZING → COMPLETED (the claim's ANALYZING read as the
enum's analysis state GEMINI_RUNNING). -/
theorem claim_C4_counterexample :
    (process_job envEmptySegs noFail "j").2.trace.map Snapshot.status =
      [.DOWNLOADING, JobStatus.EXTRACTING_AUDIO, .GEMINI_RUNNING, .ASR_RUNNING,
        .COMPLETED] ∧
    ¬ List.Chain claimStepOk .QUEUED
      [.DOWNLOADING, JobStatus.EXTRACTING_AUDIO, .GEMINI_RUNNING, .ASR_RUNNING,
        .COMPLETED] := by
  refine ⟨rfl, ?_⟩
  intro h
  cases h with
  | cons h1 h =>
      cases h with
      | cons h2 h =>
          cases h with
          | cons h3 h => exact absurd h3 (by decide)

/-! ## Claim C1 -/

/-- C1 (amended): when the analysis stage succeeds with an *empty* segments
list, `process_job` raises nothing and ends the job COMPLETED at progress 1
with no lesson and no vocabulary rows — the empty lesson is an empty
success, not a failure (tasks.py lines 123-124 only log a warning). -/
theorem claim_C1_empty_segments_completed (env : Env) (fail : String → Bool)
    (jid : String) (j : JobRec) (a : String) (hj : env.job = some j)
    (hacq : acquireRes env j (msOf env j) = .ok ())
    (hG : env.gemini = .ok ⟨a, []⟩) :
    (process_job env fail jid).1 = none ∧
    (process_job env fail jid).2.trace.getLast? =
      some ⟨.COMPLETED, 1, j.error⟩ ∧
    (process_job env fail jid).2.committedLessons = [] ∧
    (process_job env fail jid).2.committedVoca = [] := by
  obtain ⟨c1, c2, c3, c4, c5, c6, c7, c8⟩ :=
    core_ok env jid j ⟨a, []⟩ hj hacq hG
      (fun k hk => absurd hk (Nat.not_lt_zero k))
  rw [process_job_fst, process_job_trace, process_job_lessons,
    process_job_voca, c1, c2, c3, c4]
  refine ⟨rfl, ?_, rfl, rfl⟩
  rw [List.getLast?_concat]

/-- C1 amended-theorem witness: the concrete empty-segments run. -/
theorem claim_C1_empty_segments_completed_witness :
    (process_job envEmptySegs noFail "j").1 = none ∧
    (process_job envEmptySegs noFail "j").2.trace.getLast? =
      some ⟨.COMPLETED, 1, none⟩ ∧
    (process_job envEmptySegs noFail "j").2.committedLessons = [] ∧
    (process_job envEmptySegs noFail "j").2.committedVoca = [] :=
  claim_C1_empty_segments_completed envEmptySegs noFail "j" jb0 "analysis"
    rfl rfl rfl

/-- C1 counterexample: on the concrete run whose analysis returns zero
segments the orchestrator raises nothing and commits COMPLETED at progress 1
— not FAILED with a "no segments selected" error as claimed. -/
theorem claim_C1_counterexample :
    envEmptySegs.gemini = .ok ⟨"analysis", []⟩ ∧
    (process_job envEmptySegs noFail "j").1 = none ∧
    (process_job envEmptySegs noFail "j").2.trace.getLast? =
      some ⟨.COMPLETED, 1, none⟩ := by
  exact ⟨rfl, rfl, rfl⟩

/-! ## Claim C2 -/

/-- C2 (amended): when a loop stage first fails at segment `m`, the run
raises, the job ends FAILED — but the lesson and vocabulary rows of the `m`
already-processed segments remain committed: child rows are *not*
all-or-nothing, because the per-iteration progress commit (tasks.py lines
150-151) also persists the previous iteration's pending rows. -/
theorem claim_C2_partial_rows_on_failure (env : Env) (fail : String → Bool)
    (jid : String) (j : JobRec) (g : GemOut) (m : ℕ) (e : String)
    (hj : env.job = some j)
    (hacq : acquireRes env j (msOf env j) = .ok ())
    (hG : env.gemini = .ok g)
    (hm : m < g.segments.length)
    (hall : ∀ k, k < m → iterRes env k = .ok ())
    (hfail : iterRes env m = .error e) :
    (process_job env fail jid).1 = some e ∧
    (process_job env fail jid).2.trace.getLast? =
      some ⟨.FAILED, progAt g.segments.length m, some e⟩ ∧
    (process_job env fail jid).2.committedLessons =
      expectedLessons env jid (g.segments.take m) 0 ∧
    (process_job env fail jid).2.committedVoca =
      expectedVoca (g.segments.take m) 0 ∧
    (process_job env fail jid).2.committedLessons.length = m := by
  obtain ⟨c1, c2, c3, c4, c5, c6, c7, c8⟩ :=
    core_loopfail env jid j g m e hj hacq hG hm hall hfail
  rw [process_job_fst, process_job_trace, process_job_lessons,
    process_job_voca, c1, c2, c3, c4]
  refine ⟨rfl, ?_, rfl, rfl, ?_⟩
  · rw [List.getLast?_concat]
  · rw [expectedLessons_length, List.length_take]
    omega

/-- C2 amended-theorem witness: STT fails on the second of two segments; the
first segment's lesson and vocabulary rows stay committed. -/
theorem claim_C2_partial_rows_on_failure_witness :
    (process_job envSttFail noFail "j").1 = some "boom" ∧
    (process_job envSttFail noFail "j").2.trace.getLast? =
      some ⟨.FAILED, progAt 2 1, some "boom"⟩ ∧
    (process_job envSttFail noFail "j").2.committedLessons =
      expectedLessons envSttFail "j" [segA] 0 ∧
    (process_job envSttFail noFail "j").2.committedVoca =
      expectedVoca [segA] 0 ∧
    (process_job envSttFail noFail "j").2.committedLessons.length = 1 := by
  have hall : ∀ k, k < 1 → iterRes envSttFail k = .ok () := by
    intro k hk
    have h0 : k = 0 := by omega
    subst h0
    rfl
  exact claim_C2_partial_rows_on_failure envSttFail noFail "j" jb0
    ⟨"analysis", [segA, segB]⟩ 1 "boom" rfl rfl rfl (by decide) hall rfl

/-- C2 counterexample: on the concrete run where STT fails on the second
segment, the run raises "boom" and the job ends FAILED, yet one committed
lesson row and one committed vocabulary row remain for the job. -/
theorem claim_C2_counterexample :
    (process_job envSttFail noFail "j").1 = some "boom" ∧
    ((process_job envSttFail noFail "j").2.trace.getLast?).map
      Snapshot.status = some .FAILED ∧
    (process_job envSttFail noFail "j").2.committedLessons.length = 1 ∧
    (process_job envSttFail noFail "j").2.committedVoca.length = 1 := by
  exact ⟨rfl, rfl, rfl, rfl⟩

/-! ## Claim C5 -/

/-- C5: any stage exception is caught once at the orchestrator boundary: the
run re-raises exactly the error `e` it caught, the final committed snapshot
is FAILED with `e` stored as the job's error string, and no stage is retried
(one acquisition call, at most one analysis call, at most one STT call per
analysis segment). -/
theorem claim_C5_fail_catch_once (env : Env) (fail : String → Bool)
    (jid : String) (j : JobRec) (e : String) (hj : env.job = some j)
    (he : (process_job env fail jid).1 = some e) :
    (∃ p, (process_job env fail jid).2.trace.getLast? =
      some ⟨.FAILED, p, some e⟩) ∧
    (process_job env fail jid).2.acquireCalls = 1 ∧
    (process_job env fail jid).2.geminiCalls ≤ 1 ∧
    (process_job env fail jid).2.sttCalls ≤
      (match env.gemini with
        | .ok g => g.segments.length
        | .error _ => 0) := by
  obtain ⟨d1, d2, d3⟩ := process_job_counters env fail jid
  rw [process_job_fst] at he
  rw [process_job_trace, d1, d2, d3]
  rcases env_split env j with ⟨e2, hacq⟩ |
    ⟨hacq, ⟨e2, hG⟩ | ⟨g, hG, ⟨m, e2, hm, hall, hfail⟩ | hok⟩⟩
  · obtain ⟨c1, c2, c3, c4, c5, c6, c7, c8⟩ := core_acqfail env jid j e2 hj hacq
    rw [c1] at he
    injection he with he2
    subst he2
    refine ⟨⟨1/10, ?_⟩, c8, ?_, ?_⟩
    · rw [c2]
      rfl
    · rw [c6]
      exact Nat.zero_le 1
    · rw [c7]
      exact Nat.zero_le _
  · obtain ⟨c1, c2, c3, c4, c5, c6, c7, c8⟩ := core_gemfail env jid j e2 hj hacq hG
    rw [c1] at he
    injection he with he2
    subst he2
    refine ⟨⟨2/5, ?_⟩, c8, ?_, ?_⟩
    · rw [c2]
      rfl
    · rw [c6]
    · rw [c7]
      exact Nat.zero_le _
  · obtain ⟨c1, c2, c3, c4, c5, c6, c7, c8⟩ :=
      core_loopfail env jid j g m e2 hj hacq hG hm hall hfail
    rw [c1] at he
    injection he with he2
    subst he2
    refine ⟨⟨progAt g.segments.length m, ?_⟩, c8, ?_, ?_⟩
    · rw [c2, List.getLast?_concat]
    · rw [c6]
    · rw [hG]
      exact c7
  · obtain ⟨c1, c2, c3, c4, c5, c6, c7, c8⟩ := core_ok env jid j g hj hacq hG hok
    rw [c1] at he
    exact Option.noConfusion he

/-- C5 witness: the concrete run whose analysis call fails. -/
theorem claim_C5_fail_catch_once_witness :
    (∃ p, (process_job envGemFail noFail "j").2.trace.getLast? =
      some ⟨.FAILED, p, some "gem boom"⟩) ∧
    (process_job envGemFail noFail "j").2.acquireCalls = 1 ∧
    (process_job envGemFail noFail "j").2.geminiCalls ≤ 1 ∧
    (process_job envGemFail noFail "j").2.sttCalls ≤
      (match envGemFail.gemini with
        | .ok g => g.segments.length
        | .error _ => 0) :=
  claim_C5_fail_catch_once envGemFail noFail "j" jb0 "gem boom" rfl rfl

/-! ## Claim C6 -/

/-- A `json.loads` oracle for the counterexample: the JSON document
`"analysis segments"` parses to the JSON *string* `analysis segments`,
everything else raises a `JSONDecodeError` with its usual message. -/
def parseCE : String → Except String Json :=
  fun s => if s = "\x22analysis segments\x22" then
    .ok (.str "analysis segments")
  else .error "Expecting value: line 1 column 1 (char 0)"

/-- C6 (amended): when the fence-stripped text fails to parse, the raised
`JSONDecodeError` propagates unchanged (the stage's handler logs and
re-raises); in all, the validation raises exactly when the text fails to
parse or the Python `in` checks for `analysis` and `segments` on the parsed
value do not both return true — membership over a dict's keys, a list's
elements, or *substrings* of a string, not "has the required field"; and an
analysis-stage error ends the job FAILED with that error stored. -/
theorem claim_C6_analysis_validation (parse : String → Except String Json)
    (respText : String) (env : Env) (fail : String → Bool) (jid : String)
    (j : JobRec) (e : String) (hj : env.job = some j)
    (hacq : acquireRes env j (msOf env j) = .ok ())
    (hG : env.gemini = .error e) :
    (∀ pe, parse (stripCodeFences respText) = .error pe →
      analyze_media_and_select_segments parse respText = .error pe) ∧
    ((∃ e2, analyze_media_and_select_segments parse respText = .error e2) ↔
      (∃ pe, parse (stripCodeFences respText) = .error pe) ∨
      (∃ r, parse (stripCodeFences respText) = .ok r ∧
        ¬(pyContains r "analysis" = .ok true ∧
          pyContains r "segments" = .ok true))) ∧
    (process_job env fail jid).1 = some e ∧
    (process_job env fail jid).2.trace.getLast? =
      some ⟨.FAILED, 2/5, some e⟩ ∧
    (process_job env fail jid).2.committedLessons = [] := by
  obtain ⟨c1, c2, c3, c4, c5, c6, c7, c8⟩ := core_gemfail env jid j e hj hacq hG
  refine ⟨?_, ?_, ?_, ?_, ?_⟩
  · intro pe hpe
    simp [analyze_media_and_select_segments, hpe]
  · cases hp : parse (stripCodeFences respText) with
    | error pe =>
        constructor
        · intro _
          exact .inl ⟨pe, rfl⟩
        · intro _
          exact ⟨pe, by simp [analyze_media_and_select_segments, hp]⟩
    | ok r =>
        constructor
        · rintro ⟨e2, he2⟩
          refine .inr ⟨r, rfl, ?_⟩
          rintro ⟨hA, hS⟩
          simp [analyze_media_and_select_segments, hp, hA, hS] at he2
        · rintro (⟨pe, hpe⟩ | ⟨r2, hr2, hno⟩)
          · exact Except.noConfusion hpe
          · injection hr2 with hr2
            subst hr2
            cases hA : pyContains r "analysis" with
            | error e3 =>
                exact ⟨e3, by simp [analyze_media_and_select_segments, hp, hA]⟩
            | ok bA =>
                cases bA with
                | false =>
                    exact ⟨"Incomplete Gemini response",
                      by simp [analyze_media_and_select_segments, hp, hA]⟩
                | true =>
                    cases hS : pyContains r "segments" with
                    | error e3 =>
                        exact ⟨e3, by simp [analyze_media_and_select_segments,
                          hp, hA, hS]⟩
                    | ok bS =>
                        cases bS with
                        | false =>
                            exact ⟨"Incomplete Gemini response",
                              by simp [analyze_media_and_select_segments,
                                hp, hA, hS]⟩
                        | true => exact absurd ⟨hA, hS⟩ hno
  · rw [process_job_fst]
    exact c1
  · rw [process_job_trace, c2]
    rfl
  · rw [process_job_lessons]
    exact c3

/-- C6 amended-theorem witness: a text that fails to parse, and the concrete
failing-analysis run. -/
theorem claim_C6_analysis_validation_witness :
    (∀ pe, parseCE (stripCodeFences "x") = .error pe →
      analyze_media_and_select_segments parseCE "x" = .error pe) ∧
    ((∃ e2, analyze_media_and_select_segments parseCE "x" = .error e2) ↔
      (∃ pe, parseCE (stripCodeFences "x") = .error pe) ∨
      (∃ r, parseCE (stripCodeFences "x") = .ok r ∧
        ¬(pyContains r "analysis" = .ok true ∧
          pyContains r "segments" = .ok true))) ∧
    (process_job envGemFail noFail "j2").1 = some "gem boom" ∧
    (process_job envGemFail noFail "j2").2.trace.getLast? =
      some ⟨.FAILED, 2/5, some "gem boom"⟩ ∧
    (process_job envGemFail noFail "j2").2.committedLessons = [] :=
  claim_C6_analysis_validation parseCE "x" envGemFail noFail "j2" jb0
    "gem boom" rfl rfl rfl

/-- C6 counterexample: the response text `"analysis segments"` (a JSON
string document) parses to a value that has neither an `analysis` nor a
`segments` field, yet the validation accepts it without raising: Python `in`
on a string is a substring test, so the malformed output is silently
tolerated. -/
theorem claim_C6_counterexample :
    analyze_media_and_select_segments parseCE "\x22analysis segments\x22" =
      .ok (.str "analysis segments") ∧
    hasKeyObj (.str "analysis segments") "analysis" = false ∧
    hasKeyObj (.str "analysis segments") "segments" = false := by
  exact ⟨rfl, rfl, rfl⟩

/-! ## Claim C7 -/

/-- C7: on a run that raises nothing the committed lesson rows are exactly
one per analysis segment in the AI's output order, their `idx` fields are
the dense sequence `0..n-1` assigned by the enumeration (never re-derived
from timestamps), the committed vocabulary rows are the segments' items in
AI order, and every segment's vocabulary rows carry the dense indices
`0..m-1`. -/
theorem claim_C7_dense_indices (env : Env) (fail : String → Bool)
    (jid : String) (j : JobRec) (g : GemOut) (hj : env.job = some j)
    (hG : env.gemini = .ok g)
    (hdone : (process_job env fail jid).1 = none) :
    (process_job env fail jid).2.committedLessons =
      expectedLessons env jid g.segments 0 ∧
    (process_job env fail jid).2.committedLessons.length =
      g.segments.length ∧
    (process_job env fail jid).2.committedLessons.map (fun l => l.idx) =
      List.range g.segments.length ∧
    (process_job env fail jid).2.committedVoca = expectedVoca g.segments 0 ∧
    (∀ i gs, (vocaRowsOf i gs).map (fun v => v.idx) =
      List.range gs.items.length) := by
  rw [process_job_fst] at hdone
  rw [process_job_lessons, process_job_voca]
  rcases env_split env j with ⟨e, hacq⟩ |
    ⟨hacq, ⟨e, hG2⟩ | ⟨g2, hG2, ⟨m, e, hm, hall, hfail⟩ | hok⟩⟩
  · obtain ⟨c1, -⟩ := core_acqfail env jid j e hj hacq
    rw [c1] at hdone
    exact Option.noConfusion hdone
  · obtain ⟨c1, -⟩ := core_gemfail env jid j e hj hacq hG2
    rw [c1] at hdone
    exact Option.noConfusion hdone
  · obtain ⟨c1, -⟩ := core_loopfail env jid j g2 m e hj hacq hG2 hm hall hfail
    rw [c1] at hdone
    exact Option.noConfusion hdone
  · rw [hG] at hG2
    injection hG2 with hG2
    subst hG2
    obtain ⟨c1, c2, c3, c4, c5, c6, c7, c8⟩ := core_ok env jid j g hj hacq hG hok
    rw [c3, c4]
    refine ⟨rfl, expectedLessons_length env jid g.segments 0, ?_, rfl,
      fun i gs => vocaRowsOf_map_idx i gs⟩
    rw [expectedLessons_map_idx]
    exact (List.range_eq_range' g.segments.length).symm

/-- C7 witness: the fully successful two-segment run. -/
theorem claim_C7_dense_indices_witness :
    (process_job baseEnv noFail "j").2.committedLessons =
      expectedLessons baseEnv "j" [segA, segB] 0 ∧
    (process_job baseEnv noFail "j").2.committedLessons.length = 2 ∧
    (process_job baseEnv noFail "j").2.committedLessons.map (fun l => l.idx) =
      List.range 2 ∧
    (process_job baseEnv noFail "j").2.committedVoca =
      expectedVoca [segA, segB] 0 ∧
    (∀ i gs, (vocaRowsOf i gs).map (fun v => v.idx) =
      List.range gs.items.length) :=
  claim_C7_dense_indices baseEnv noFail "j" jb0 ⟨"analysis", [segA, segB]⟩
    rfl rfl rfl

/-! ## Claim C9 -/

/-- C9: on a run that raises nothing the committed word rows are the STT
words of each cut segment re-based to the absolute job timeline by adding
the segment's `startSec` to both the word's start and end, accumulated in
segment order and enumerated globally; and per segment, the accumulated
words are exactly the STT words shifted by `+ startSec` on both endpoints. -/
theorem claim_C9_rebased_word_rows (env : Env) (fail : String → Bool)
    (jid : String) (j : JobRec) (g : GemOut) (hj : env.job = some j)
    (hG : env.gemini = .ok g)
    (hdone : (process_job env fail jid).1 = none) :
    (process_job env fail jid).2.committedWords =
      (expectedAbsWords env g.segments 0).enum.map
        (fun p => ⟨p.1, p.2.startSeconds, p.2.endSeconds, p.2.word⟩) ∧
    (∀ i gs r, env.stt i = .ok r → absWordsOfSeg env i gs =
      r.words.map (fun w =>
        ⟨w.word, w.startSeconds + gs.startSec,
          w.endSeconds + gs.startSec⟩)) := by
  rw [process_job_fst] at hdone
  rw [process_job_words]
  rcases env_split env j with ⟨e, hacq⟩ |
    ⟨hacq, ⟨e, hG2⟩ | ⟨g2, hG2, ⟨m, e, hm, hall, hfail⟩ | hok⟩⟩
  · obtain ⟨c1, -⟩ := core_acqfail env jid j e hj hacq
    rw [c1] at hdone
    exact Option.noConfusion hdone
  · obtain ⟨c1, -⟩ := core_gemfail env jid j e hj hacq hG2
    rw [c1] at hdone
    exact Option.noConfusion hdone
  · obtain ⟨c1, -⟩ := core_loopfail env jid j g2 m e hj hacq hG2 hm hall hfail
    rw [c1] at hdone
    exact Option.noConfusion hdone
  · rw [hG] at hG2
    injection hG2 with hG2
    subst hG2
    obtain ⟨c1, c2, c3, c4, c5, c6, c7, c8⟩ := core_ok env jid j g hj hacq hG hok
    exact ⟨c5, fun i gs r hr => by simp [absWordsOfSeg, hr]⟩

/-- C9 witness: the fully successful two-segment run. -/
theorem claim_C9_rebased_word_rows_witness :
    (process_job baseEnv noFail "j").2.committedWords =
      (expectedAbsWords baseEnv [segA, segB] 0).enum.map
        (fun p => ⟨p.1, p.2.startSeconds, p.2.endSeconds, p.2.word⟩) ∧
    (∀ i gs r, baseEnv.stt i = .ok r → absWordsOfSeg baseEnv i gs =
      r.words.map (fun w =>
        ⟨w.word, w.startSeconds + gs.startSec,
          w.endSeconds + gs.startSec⟩)) :=
  claim_C9_rebased_word_rows baseEnv noFail "j" jb0 ⟨"analysis", [segA, segB]⟩
    rfl rfl rfl

/-! ## Claim C10 -/

/-- When every deletion succeeds, folding `cleanup_file` over a worklist
removes one occurrence of each listed path. -/
lemma cleanup_foldl_eq_diff (fail : String → Bool)
    (hok : ∀ p, fail p = false) :
    ∀ (todo fs : List String),
      todo.foldl (fun acc p => (cleanup_file fail acc p).1) fs =
        fs.diff todo := by
  intro todo
  induction todo with
  | nil =>
      intro fs
      simp
  | cons p rest ih =>
      intro fs
      have hstep : (cleanup_file fail fs p).1 = fs.erase p := by
        by_cases hmem : p ∈ fs
        · simp [cleanup_file, hok p, hmem]
        · simp [cleanup_file, hok p, hmem, List.erase_of_not_mem hmem]
      rw [List.foldl_cons, hstep, ih]
      exact (List.diff_cons fs rest p).symm

/-- When every deletion succeeds, `cleanup_temp_files` is exactly the
removal of the files matching the job pattern. -/
lemma cleanup_temp_files_eq (fail : String → Bool)
    (hok : ∀ p, fail p = false) (jid : String) (fs : List String) :
    cleanup_temp_files fail jid fs =
      fs.diff (fs.filter (matchesJob jid)) :=
  cleanup_foldl_eq_diff fail hok (fs.filter (matchesJob jid)) fs

/-- After a completed cleanup, no file matching the job pattern remains. -/
lemma cleanup_removes_all (fail : String → Bool)
    (hok : ∀ p, fail p = false) (jid : String) (fs : List String)
    (hnd : fs.Nodup) :
    (cleanup_temp_files fail jid fs).filter (matchesJob jid) = [] := by
  rw [cleanup_temp_files_eq fail hok, hnd.diff_eq_filter]
  rw [List.filter_eq_nil_iff]
  intro a ha
  rw [List.mem_filter] at ha
  obtain ⟨hmem, hnot⟩ := ha
  simp only [decide_eq_true_eq] at hnot
  intro hma
  exact hnot (List.mem_filter.mpr ⟨hmem, hma⟩)

/-- A second completed cleanup for the same job id is a no-op. -/
lemma cleanup_temp_files_idem (fail : String → Bool)
    (hok : ∀ p, fail p = false) (jid : String) (fs : List String)
    (hnd : fs.Nodup) :
    cleanup_temp_files fail jid (cleanup_temp_files fail jid fs) =
      cleanup_temp_files fail jid fs := by
  have h := cleanup_removes_all fail hok jid fs hnd
  show ((cleanup_temp_files fail jid fs).filter (matchesJob jid)).foldl
    (fun acc p => (cleanup_file fail acc p).1)
    (cleanup_temp_files fail jid fs) = cleanup_temp_files fail jid fs
  rw [h]
  rfl

/-- C10: after a completed cleanup (every deletion succeeded) no file
matching the job's temp pattern remains, so a second cleanup for the same
job id is a no-op; and because the finally-block cleanup only touches the
filesystem — every per-file failure is caught inside `cleanup_file` — the
run's raised error, final job fields and committed history are identical
under *any* deletion-failure oracle: cleanup can never mask or override the
job's already-determined terminal status. -/
theorem claim_C10_cleanup_idempotent (fail : String → Bool) (jid : String)
    (fs : List String) (env : Env) (f2 : String → Bool) (jid2 : String)
    (hnd : fs.Nodup) (hok : ∀ p, fail p = false) :
    (cleanup_temp_files fail jid fs).filter (matchesJob jid) = [] ∧
    cleanup_temp_files fail jid (cleanup_temp_files fail jid fs) =
      cleanup_temp_files fail jid fs ∧
    (process_job env fail jid2).1 = (process_job env f2 jid2).1 ∧
    (process_job env fail jid2).2.job = (process_job env f2 jid2).2.job ∧
    (process_job env fail jid2).2.trace =
      (process_job env f2 jid2).2.trace :=
  ⟨cleanup_removes_all fail hok jid fs hnd,
    cleanup_temp_files_idem fail hok jid fs hnd, rfl, rfl, rfl⟩

/-- C10 witness: a concrete two-file filesystem, one file matching the job
id, and the successful run compared under an always-failing deleter. -/
theorem claim_C10_cleanup_idempotent_witness :
    (cleanup_temp_files noFail "j" ["/tmp/a_j_1", "/data/keep"]).filter
      (matchesJob "j") = [] ∧
    cleanup_temp_files noFail "j"
        (cleanup_temp_files noFail "j" ["/tmp/a_j_1", "/data/keep"]) =
      cleanup_temp_files noFail "j" ["/tmp/a_j_1", "/data/keep"] ∧
    (process_job baseEnv noFail "j").1 =
      (process_job baseEnv (fun _ => true) "j").1 ∧
    (process_job baseEnv noFail "j").2.job =
      (process_job baseEnv (fun _ => true) "j").2.job ∧
    (process_job baseEnv noFail "j").2.trace =
      (process_job baseEnv (fun _ => true) "j").2.trace :=
  claim_C10_cleanup_idempotent noFail "j" ["/tmp/a_j_1", "/data/keep"]
    baseEnv (fun _ => true) "j" (by decide) (fun _ => rfl)

end Scenely